import Mathlib

/-!
# Command line Blackjack (cmdBlackjack/Main.cpp)

A shallow embedding of the program and proofs of its specified behaviour.

Modelling conventions.
* The scoped enums RANKS and SUITS have underlying type int, so a value of the
  enum is modelled by its underlying integer; the enumerators are named constants.
* C++ int is a 32 bit signed integer. It is modelled by Int, and every result
  of int arithmetic in the hand value code is reduced to the two complement
  range by wrapInt, which is how signed overflow behaves on the usual targets.
* Text written to std::cout is modelled as a String that is appended to.
* Indexed reads and writes are bounds checked and return Option.
-/

namespace Blackjack

/-! ## Data model -/

/-- Card ranks: the underlying integer of enum class RANKS. -/
abbrev RANKS := Int

namespace RANKS
abbrev TWO : RANKS := 0
abbrev THREE : RANKS := 1
abbrev FOUR : RANKS := 2
abbrev FIVE : RANKS := 3
abbrev SIX : RANKS := 4
abbrev SEVEN : RANKS := 5
abbrev EIGHT : RANKS := 6
abbrev NINE : RANKS := 7
abbrev TEN : RANKS := 8
abbrev JACK : RANKS := 9
abbrev QUEEN : RANKS := 10
abbrev KING : RANKS := 11
abbrev ACE : RANKS := 12
abbrev MAX_RANKS : RANKS := 13
end RANKS

/-- Card suits: the underlying integer of enum class SUITS. -/
abbrev SUITS := Int

namespace SUITS
abbrev HEART : SUITS := 0
abbrev DIMOND : SUITS := 1
abbrev CLUB : SUITS := 2
abbrev SPADE : SUITS := 3
abbrev MAX_SUITS : SUITS := 4
end SUITS

/-- Game results. -/
inductive GAME_RESULT where
  | PLAYER_WIN
  | DEALER_WIN
  | TIE
deriving DecidableEq, Repr

/-- A card has a rank and a suit. -/
structure CARD where
  rank : RANKS
  suit : SUITS
deriving DecidableEq, Repr

/-! ## printCard -/

/-- The rank switch of printCard. -/
def printCard.rankText (r : RANKS) : String :=
  if r = RANKS.TWO then "2"
  else if r = RANKS.THREE then "3"
  else if r = RANKS.FOUR then "4"
  else if r = RANKS.FIVE then "5"
  else if r = RANKS.SIX then "6"
  else if r = RANKS.SEVEN then "7"
  else if r = RANKS.EIGHT then "8"
  else if r = RANKS.NINE then "9"
  else if r = RANKS.TEN then "T"
  else if r = RANKS.JACK then "J"
  else if r = RANKS.QUEEN then "Q"
  else if r = RANKS.KING then "K"
  else if r = RANKS.ACE then "A"
  else "?"

/-- The suit switch of printCard. -/
def printCard.suitText (s : SUITS) : String :=
  if s = SUITS.DIMOND then "D"
  else if s = SUITS.HEART then "H"
  else if s = SUITS.CLUB then "C"
  else if s = SUITS.SPADE then "S"
  else "?"

/-- The text printCard writes: the placeholder glyph (char)178 when the card is
hidden, otherwise the rank text followed by the suit text. -/
def printCard (card : CARD) (hideCard : Bool) : String :=
  if hideCard then String.singleton (Char.ofNat 178)
  else printCard.rankText card.rank ++ printCard.suitText card.suit

/-! ## getCardValue and cardSumCal -/

/-- Reduction of an integer to the range of a 32 bit int, -2^31 .. 2^31 - 1, by
two complement wrap-around. -/
def wrapInt (x : Int) : Int := (x + 2147483648) % 4294967296 - 2147483648

/-- The ace loop of getCardValue, `for (j = 0; j < aceCount; j++)`, by the number
of iterations left: each iteration tests the unchanged currSum and adds to tempSum. -/
def getCardValue.aceLoop : Nat → Int → Int → Int
  | 0, _, tempSum => tempSum
  | n + 1, currSum, tempSum =>
      getCardValue.aceLoop n currSum
        (if wrapInt (currSum + 11) > 21 then wrapInt (tempSum + 1) else wrapInt (tempSum + 11))

/-- Numeric value of a card. For an ace the result is the whole new sum: currSum
plus the contributions of aceCount aces. -/
def getCardValue (card : CARD) (aceCount : Int) (currSum : Int) : Int :=
  let tempSum := currSum
  if card.rank < RANKS.TEN then
    wrapInt (card.rank + 2)
  else if card.rank = RANKS.TEN ∨ card.rank = RANKS.JACK ∨ card.rank = RANKS.QUEEN
      ∨ card.rank = RANKS.KING then
    10
  else if card.rank = RANKS.ACE then
    getCardValue.aceLoop aceCount.toNat currSum tempSum
  else
    0

/-- Local variables of cardSumCal. aceCard is uninitialised until the first ace. -/
structure cardSumCal.Locals where
  sum : Int
  aceCount : Int
  aceCard : Option CARD
deriving DecidableEq, Repr

/-- One iteration of the range-for loop of cardSumCal. The non-ace call of
getCardValue uses the default arguments aceCount = 0 and currSum = 0. -/
def cardSumCal.step (st : cardSumCal.Locals) (c : CARD) : cardSumCal.Locals :=
  if c.rank = RANKS.ACE then
    ⟨st.sum, wrapInt (st.aceCount + 1), some c⟩
  else
    ⟨wrapInt (st.sum + getCardValue c 0 0), st.aceCount, st.aceCard⟩

/-- Calculate the card sum of a hand. -/
def cardSumCal (arr : List CARD) : Int :=
  let st := arr.foldl cardSumCal.step ⟨0, 0, none⟩
  if st.aceCount > 0 then
    match st.aceCard with
    | some aceCard => getCardValue aceCard st.aceCount st.sum
    | none => st.sum
  else
    st.sum

/-! ## createDeck, printDeck, shuffleDeck -/

/-- A deck is an array of exactly 52 cards. -/
structure deck_type where
  cards : List CARD
  size_eq : cards.length = 52
deriving DecidableEq

/-- A slot of the local array of createDeck, whose fields are indeterminate
(none) until they are assigned. -/
structure createDeck.Slot where
  rank : Option RANKS
  suit : Option SUITS
deriving DecidableEq, Repr

/-- Local variables of createDeck. -/
structure createDeck.Locals where
  deck : List createDeck.Slot
  index : Nat
deriving DecidableEq, Repr

/-- The assignment `deck[index].rank = r`; fails when index is out of range. -/
def createDeck.setRank (deck : List createDeck.Slot) (index : Nat) (r : RANKS) :
    Option (List createDeck.Slot) :=
  match deck[index]? with
  | some slot => some (deck.set index ⟨some r, slot.suit⟩)
  | none => none

/-- The assignment `deck[index].suit = s`; fails when index is out of range. -/
def createDeck.setSuit (deck : List createDeck.Slot) (index : Nat) (s : SUITS) :
    Option (List createDeck.Slot) :=
  match deck[index]? with
  | some slot => some (deck.set index ⟨slot.rank, some s⟩)
  | none => none

/-- The body of the inner loop of createDeck for suit index i and rank index j. -/
def createDeck.body (i j : Int) (st : createDeck.Locals) : Option createDeck.Locals :=
  match createDeck.setRank st.deck st.index j with
  | none => none
  | some deck1 =>
    match createDeck.setSuit deck1 st.index i with
    | none => none
    | some deck2 => some ⟨deck2, st.index + 1⟩

/-- The inner loop `for (j = 0; j != MAX_RANKS; ++j)`. -/
def createDeck.inner (i : Int) (st : createDeck.Locals) : Option createDeck.Locals :=
  (List.range RANKS.MAX_RANKS.toNat).foldlM (fun s j => createDeck.body i (j : Int) s) st

/-- The outer loop `for (i = 0; i != MAX_SUITS; ++i)`. -/
def createDeck.outer (st : createDeck.Locals) : Option createDeck.Locals :=
  (List.range SUITS.MAX_SUITS.toNat).foldlM (fun s i => createDeck.inner (i : Int) s) st

/-- Reading a slot as a card; fails on an indeterminate field. -/
def createDeck.slotCard (s : createDeck.Slot) : Option CARD :=
  match s.rank, s.suit with
  | some r, some su => some ⟨r, su⟩
  | _, _ => none

/-- Reading all slots as cards; fails if any field is indeterminate. -/
def createDeck.slotCards : List createDeck.Slot → Option (List CARD)
  | [] => some []
  | s :: rest =>
    match createDeck.slotCard s, createDeck.slotCards rest with
    | some c, some cs => some (c :: cs)
    | _, _ => none

/-- Build the deck: all 52 slots start indeterminate, the loops fill them, and the
array is returned by value. -/
def createDeck : Option deck_type :=
  match createDeck.outer ⟨List.replicate 52 ⟨none, none⟩, 0⟩ with
  | none => none
  | some st =>
    match createDeck.slotCards st.deck with
    | none => none
    | some cards => if h : cards.length = 52 then some ⟨cards, h⟩ else none

/-- Print the entire deck: every card followed by a space, then a newline. -/
def printDeck (deck : deck_type) : String :=
  deck.cards.foldl (fun out card => out ++ printCard card false ++ " ") "" ++ "\n"

/-- Exchange of the elements at positions i and j. -/
def shuffleDeck.swap (l : List CARD) (i j : Nat) : List CARD :=
  match l[i]?, l[j]? with
  | some a, some b => (l.set i b).set j a
  | _, _ => l

/-- The loop of std::shuffle, which is library code: the reference loop
`for (i = n - 1; i > 0; --i) swap(first[i], first[D(g, 0, i)])`, where the
draw D(g, 0, i) is the generator output rnd i reduced to the range 0..i. -/
def shuffleDeck.loop (rnd : Nat → Nat) : Nat → List CARD → List CARD
  | 0, l => l
  | i + 1, l => shuffleDeck.loop rnd i (shuffleDeck.swap l (i + 1) (rnd (i + 1) % (i + 2)))

/-- Shuffle the deck in place with the outputs rnd of the random generator. -/
def shuffleDeck (rnd : Nat → Nat) (deck : deck_type) : deck_type :=
  if h : (shuffleDeck.loop rnd 51 deck.cards).length = 52 then
    ⟨shuffleDeck.loop rnd 51 deck.cards, h⟩
  else deck

/-! ## playBlackJack and main -/

/-- The header written by drawTerminalOut. -/
def drawTerminalOut : String :=
  "\t\t\t\t" ++ "************************************************************\n"
  ++ "\t\t\t\t" ++ "**                                                        **\n"
  ++ "\t\t\t\t" ++ "**                   ##################                   **\n"
  ++ "\t\t\t\t" ++ "**                   # BLACKJACK GAME #                   **\n"
  ++ "\t\t\t\t" ++ "**                   ##################                   **\n"
  ++ "\t\t\t\t" ++ "**                                                        **\n"
  ++ "\t\t\t\t" ++ "************************************************************\n"
  ++ "\t\t\t\t" ++ "   PLAYER HAND                              DEALER HAND     \n"
  ++ "\t\t\t\t" ++ "  ==============                           ==============   \n"

/-- Local state of playBlackJack. The deck is carried along to record that it is
only read; result is indeterminate (none) until assigned; reads is a ghost
record of the deck indices read so far; out is the text written so far. -/
structure playBlackJack.Locals where
  sDeck : deck_type
  gameOver : Bool
  topCard : Nat
  result : Option GAME_RESULT
  playerHand : List CARD
  dealerHand : List CARD
  reads : List Nat
  out : String

/-- The assignment `hand[i] = c` on a vector; fails when i is out of range. -/
def playBlackJack.assign (hand : List CARD) (i : Nat) (c : CARD) : Option (List CARD) :=
  if i < hand.length then some (hand.set i c) else none

/-- One iteration of the dealing loop: a card to the player, then one to the dealer. -/
def playBlackJack.dealStep (i : Nat) (st : playBlackJack.Locals) :
    Option playBlackJack.Locals :=
  match st.sDeck.cards[st.topCard]? with
  | none => none
  | some c1 =>
    match playBlackJack.assign st.playerHand i c1 with
    | none => none
    | some ph =>
      match st.sDeck.cards[st.topCard + 1]? with
      | none => none
      | some c2 =>
        match playBlackJack.assign st.dealerHand i c2 with
        | none => none
        | some dh =>
          some ⟨st.sDeck, st.gameOver, st.topCard + 1 + 1, st.result, ph, dh,
            st.reads ++ [st.topCard, st.topCard + 1], st.out⟩

/-- The state before the dealing loop: both hands are vectors of two value
initialised cards. -/
def playBlackJack.init (sDeck : deck_type) : playBlackJack.Locals :=
  ⟨sDeck, false, 0, none, [⟨0, 0⟩, ⟨0, 0⟩], [⟨0, 0⟩, ⟨0, 0⟩], [], ""⟩

/-- The dealing loop `for (i = 0; i < 2; i++)`. -/
def playBlackJack.deal (sDeck : deck_type) : Option playBlackJack.Locals :=
  (List.range 2).foldlM (fun st i => playBlackJack.dealStep i st) (playBlackJack.init sDeck)

/-- The comparison of the two totals at the end of the round. -/
def playBlackJack.compare (playerSum dealerSum : Int) : GAME_RESULT :=
  if playerSum > dealerSum then GAME_RESULT.PLAYER_WIN
  else if playerSum < dealerSum then GAME_RESULT.DEALER_WIN
  else GAME_RESULT.TIE

/-- The text written by one pass of the while loop. -/
def playBlackJack.roundText (p0 p1 d0 d1 : CARD) (playerSum dealerSum : Int) : String :=
  "\t\t\t " ++ printCard p0 false ++ " " ++ printCard p1 false ++ "\t\t\t\t\t"
    ++ printCard d0 false ++ " " ++ printCard d1 true
    ++ "\n" ++ "PLAYER TOTAL: " ++ toString playerSum ++ "\n"
    ++ "DEALER TOTAL: " ++ toString dealerSum ++ "\n"

/-- The body of the while loop: print the hands, compute both sums, print them,
set result from their comparison and set gameOver. -/
def playBlackJack.body (st : playBlackJack.Locals) : Option playBlackJack.Locals :=
  match st.playerHand[0]?, st.playerHand[1]?, st.dealerHand[0]?, st.dealerHand[1]? with
  | some p0, some p1, some d0, some d1 =>
    some ⟨st.sDeck, true, st.topCard,
      some (playBlackJack.compare (cardSumCal st.playerHand) (cardSumCal st.dealerHand)),
      st.playerHand, st.dealerHand, st.reads,
      st.out ++ playBlackJack.roundText p0 p1 d0 d1
        (cardSumCal st.playerHand) (cardSumCal st.dealerHand)⟩
  | _, _, _, _ => none

/-- The loop `while (!gameOver)`. It terminates because the body sets gameOver. -/
def playBlackJack.loop (st : playBlackJack.Locals) : Option playBlackJack.Locals :=
  if st.gameOver then some st
  else
    match h : playBlackJack.body st with
    | none => none
    | some st1 => playBlackJack.loop st1
termination_by (if st.gameOver then 0 else 1)
decreasing_by
  rename_i hgo
  have h1 : st1.gameOver = true := by
    unfold playBlackJack.body at h
    split at h
    · injection h with h
      rw [← h]
    · exact absurd h (by simp)
  simp [h1, hgo]

/-- What playBlackJack hands back: the returned result and the text written. -/
structure playBlackJack.Outcome where
  result : GAME_RESULT
  out : String
deriving DecidableEq, Repr

/-- Play one round on the given deck: deal, run the loop, return result. -/
def playBlackJack (sDeck : deck_type) : Option playBlackJack.Outcome :=
  match playBlackJack.deal sDeck with
  | none => none
  | some st0 =>
    match playBlackJack.loop st0 with
    | none => none
    | some st =>
      match st.result with
      | none => none
      | some r => some ⟨r, st.out⟩

/-- The switch at the end of main. -/
def main.resultText (r : GAME_RESULT) : String :=
  match r with
  | GAME_RESULT.PLAYER_WIN => "YOU WIN!!!"
  | GAME_RESULT.DEALER_WIN => "DEALER WIN"
  | GAME_RESULT.TIE => "TIE"

/-- The whole text written by main, for the generator outputs rnd. -/
def main (rnd : Nat → Nat) : Option String :=
  match createDeck with
  | none => none
  | some deck =>
    match playBlackJack (shuffleDeck rnd deck) with
    | none => none
    | some res =>
      some (drawTerminalOut ++ printDeck deck ++ "\n" ++ printDeck (shuffleDeck rnd deck)
        ++ "\n" ++ res.out ++ main.resultText res.result)

/-! ## Specification side definitions for the hand value -/

/-- A rank is valid when it is one of the thirteen enumerators Two..Ace. -/
def validRank (r : RANKS) : Prop := RANKS.TWO ≤ r ∧ r ≤ RANKS.ACE

instance (r : RANKS) : Decidable (validRank r) := by
  unfold validRank; infer_instance

/-- A suit is valid when it is one of the four enumerators Heart..Spade. -/
def validSuit (s : SUITS) : Prop := SUITS.HEART ≤ s ∧ s ≤ SUITS.SPADE

instance (s : SUITS) : Decidable (validSuit s) := by
  unfold validSuit; infer_instance

/-- The value table of the specification for non-ace ranks: Two..Nine are worth
their face value, Ten, Jack, Queen and King are worth 10. -/
def faceValue (r : RANKS) : Int :=
  if r = RANKS.TWO then 2
  else if r = RANKS.THREE then 3
  else if r = RANKS.FOUR then 4
  else if r = RANKS.FIVE then 5
  else if r = RANKS.SIX then 6
  else if r = RANKS.SEVEN then 7
  else if r = RANKS.EIGHT then 8
  else if r = RANKS.NINE then 9
  else if r = RANKS.TEN then 10
  else if r = RANKS.JACK then 10
  else if r = RANKS.QUEEN then 10
  else if r = RANKS.KING then 10
  else 0

/-- The non-ace base sum of a hand: the values of its cards that are not aces. -/
def nonAceSum (hand : List CARD) : Int :=
  ((hand.filter (fun c => decide (c.rank ≠ RANKS.ACE))).map (fun c => faceValue c.rank)).sum

/-- The number of aces of a hand. -/
def aceNumber (hand : List CARD) : Nat :=
  hand.countP (fun c => decide (c.rank = RANKS.ACE))

/-- The running total rule in the words of the specification: starting from the
non-ace sum, each ace in turn adds 11 if that keeps the running total at or
below 21 and adds 1 otherwise. -/
def runningTotal (hand : List CARD) : Int :=
  (List.range (aceNumber hand)).foldl
    (fun total _ => if total + 11 ≤ 21 then total + 11 else total + 1) (nonAceSum hand)


/-! ## Specification side definitions for the deck -/

/-- The deck order of the specification: suits in the outer position and ranks in
the inner position, both ascending. -/
def orderedCards : List CARD :=
  (List.range 4).flatMap (fun s => (List.range 13).map (fun r => ⟨(r : Int), (s : Int)⟩))

/-- Generator outputs under which the shuffle brings an Ace, a Nine, a King and
an Eight to the front of the freshly built deck. -/
def sampleDraws : Nat → Nat :=
  fun i => if i = 12 then 0 else if i = 11 then 2 else if i = 7 then 1
    else if i = 6 then 3 else i

/-- The freshly built deck in the order of the specification. -/
def orderedDeck : deck_type := ⟨orderedCards, by decide⟩

/-! ## Specification side definitions for the claims on order, bounds and text -/

/-- The part of the card sum that comes from the non-ace cards, as a function of
the ranks alone: the exact sum of the values getCardValue gives to the ranks that
are not aces. -/
def rankBaseSum (rs : List RANKS) : Int :=
  ((rs.filter (fun r => decide (r ≠ RANKS.ACE))).map
    (fun r => getCardValue ⟨r, SUITS.HEART⟩ 0 0)).sum

/-- The card sum as a function of the ranks alone: the base sum and the number of
aces as they are held in int variables, an ace test and ace contributions that
are the same for every ace, and none at all when the int ace counter is not
positive. -/
def rankTotal (rs : List RANKS) : Int :=
  if wrapInt (rs.count RANKS.ACE : Int) > 0 then
    wrapInt (wrapInt (rankBaseSum rs) + wrapInt (rs.count RANKS.ACE : Int)
      * (if wrapInt (wrapInt (rankBaseSum rs) + 11) > 21 then 1 else 11))
  else
    wrapInt (rankBaseSum rs)

/-- The largest value of a 32 bit int. -/
def INT_MAX : Int := 2147483647

/-- A hand too long for its total to fit an int: 214748365 Kings of Hearts. -/
def kingsHand : List CARD := List.replicate 214748365 ⟨RANKS.KING, SUITS.HEART⟩

/-- The hard value of a hand: every ace counted as 1. -/
def hardValue (hand : List CARD) : Int :=
  (hand.map (fun c => if c.rank = RANKS.ACE then 1 else faceValue c.rank)).sum

/-- The standard Blackjack value: all aces as 1, plus 10 if the hand has an ace
and that keeps the total at or below 21. -/
def stdValue (hand : List CARD) : Int :=
  if 0 < aceNumber hand ∧ hardValue hand + 10 ≤ 21 then hardValue hand + 10
  else hardValue hand

/-- The rank characters of the card text form, in enum order. -/
def rankChars : List Char :=
  ['2', '3', '4', '5', '6', '7', '8', '9', 'T', 'J', 'Q', 'K', 'A']

/-- The suit characters of the card text form, in enum order. -/
def suitChars : List Char := ['H', 'D', 'C', 'S']

/-- The rank character of the specification; unknown values give the question mark. -/
def rankChar (r : RANKS) : Char :=
  if 0 ≤ r then rankChars.getD r.toNat '?' else '?'

/-- The suit character of the specification; unknown values give the question mark. -/
def suitChar (s : SUITS) : Char :=
  if 0 ≤ s then suitChars.getD s.toNat '?' else '?'

/-- The two character code of a card in the specification. -/
def cardCode (c : CARD) : String := String.mk [rankChar c.rank, suitChar c.suit]

/-- The deck dump read literally from the specification: the card codes separated
by single spaces, followed by a newline. -/
def separatedDump (deck : deck_type) : String :=
  String.intercalate " " (deck.cards.map (fun c => printCard c false)) ++ "\n"

/-! ## Hand value: auxiliary lemmas -/

set_option maxRecDepth 100000

theorem wrapInt_of_range (x : Int) (h1 : -2147483648 ≤ x) (h2 : x ≤ 2147483647) :
    wrapInt x = x := by
  unfold wrapInt
  omega

theorem wrapInt_range (x : Int) : -2147483648 ≤ wrapInt x ∧ wrapInt x ≤ 2147483647 := by
  unfold wrapInt
  omega

theorem wrapInt_idem (x : Int) : wrapInt (wrapInt x) = wrapInt x :=
  wrapInt_of_range _ (wrapInt_range x).1 (wrapInt_range x).2

theorem wrapInt_add_left (a b : Int) : wrapInt (wrapInt a + b) = wrapInt (a + b) := by
  unfold wrapInt
  omega

theorem wrapInt_pos (n : Nat) (h : wrapInt (n : Int) > 0) : 0 < n := by
  rcases Nat.eq_zero_or_pos n with h0 | h0
  · subst h0
    exact absurd h (by decide)
  · exact h0

/-- The value of a card does not depend on its suit. -/
theorem getCardValue_suit (c : CARD) (a s : Int) :
    getCardValue c a s = getCardValue ⟨c.rank, SUITS.HEART⟩ a s := by
  obtain ⟨r, su⟩ := c
  rfl

theorem getCardValue_table (r su : Int) (h0 : 0 ≤ r) (h12 : r < 12) (a s : Int) :
    getCardValue ⟨r, su⟩ a s = faceValue r := by
  have h : r = 0 ∨ r = 1 ∨ r = 2 ∨ r = 3 ∨ r = 4 ∨ r = 5 ∨ r = 6 ∨ r = 7 ∨ r = 8 ∨ r = 9
      ∨ r = 10 ∨ r = 11 := by omega
  rcases h with h | h | h | h | h | h | h | h | h | h | h | h <;> subst h <;> rfl

theorem getCardValue_nonAce (c : CARD) (hv : validRank c.rank) (hna : c.rank ≠ RANKS.ACE)
    (a s : Int) : getCardValue c a s = faceValue c.rank := by
  obtain ⟨r, su⟩ := c
  exact getCardValue_table r su hv.1 (lt_of_le_of_ne hv.2 hna) a s

/-- The ace loop in closed form: the same contribution for every iteration, the
running sum reduced to the int range. -/
theorem aceLoop_eq (n : Nat) (currSum tempSum : Int) (ht : wrapInt tempSum = tempSum) :
    getCardValue.aceLoop n currSum tempSum
      = wrapInt (tempSum + (n : Int) * (if wrapInt (currSum + 11) > 21 then 1 else 11)) := by
  induction n generalizing tempSum with
  | zero => simp [getCardValue.aceLoop, ht]
  | succ k ih =>
    rw [getCardValue.aceLoop]
    by_cases h : wrapInt (currSum + 11) > 21
    · simp only [h, if_true]
      rw [ih _ (wrapInt_idem _), wrapInt_add_left]
      simp only [h, if_true]
      push_cast
      ring_nf
    · simp only [h, if_false]
      rw [ih _ (wrapInt_idem _), wrapInt_add_left]
      simp only [h, if_false]
      push_cast
      ring_nf

theorem getCardValue_ace (c : CARD) (hc : c.rank = RANKS.ACE) (a s : Int) (ha : 0 ≤ a)
    (hs : wrapInt s = s) :
    getCardValue c a s = wrapInt (s + a * (if wrapInt (s + 11) > 21 then 1 else 11)) := by
  obtain ⟨r, su⟩ := c
  have hr : r = 12 := hc
  subst hr
  have h : getCardValue ⟨12, su⟩ a s = getCardValue.aceLoop a.toNat s s := by
    simp [getCardValue, RANKS.TEN, RANKS.JACK, RANKS.QUEEN, RANKS.KING, RANKS.ACE]
  rw [h, aceLoop_eq _ _ _ hs, Int.toNat_of_nonneg ha]

theorem nonAceSum_cons (c : CARD) (hand : List CARD) :
    nonAceSum (c :: hand)
      = (if c.rank = RANKS.ACE then 0 else faceValue c.rank) + nonAceSum hand := by
  unfold nonAceSum
  by_cases h : c.rank = RANKS.ACE <;> simp [List.filter_cons, h]

theorem aceNumber_cons (c : CARD) (hand : List CARD) :
    aceNumber (c :: hand) = aceNumber hand + (if c.rank = RANKS.ACE then 1 else 0) := by
  unfold aceNumber
  by_cases h : c.rank = RANKS.ACE <;> simp [List.countP_cons, h]

theorem rankBaseSum_cons (r : RANKS) (rs : List RANKS) :
    rankBaseSum (r :: rs)
      = (if r = RANKS.ACE then 0 else getCardValue ⟨r, SUITS.HEART⟩ 0 0) + rankBaseSum rs := by
  unfold rankBaseSum
  by_cases h : r = RANKS.ACE <;> simp [List.filter_cons, h]

theorem aceNumber_ranks (hand : List CARD) :
    aceNumber hand = (hand.map CARD.rank).count RANKS.ACE := by
  induction hand with
  | nil => rfl
  | cons c rest ih =>
    rw [aceNumber_cons, ih, List.map_cons, List.count_cons]
    by_cases h : c.rank = RANKS.ACE <;> simp [h]

/-- The loop invariant of cardSumCal: sum holds the base sum of the ranks seen and
aceCount the number of aces seen, both reduced to the int range, and aceCard holds
an ace as soon as one was seen. -/
theorem foldl_step_ranks (hand : List CARD) (st : cardSumCal.Locals)
    (hs : wrapInt st.sum = st.sum) (ha : wrapInt st.aceCount = st.aceCount) :
    (hand.foldl cardSumCal.step st).sum
      = wrapInt (st.sum + rankBaseSum (hand.map CARD.rank))
    ∧ (hand.foldl cardSumCal.step st).aceCount
      = wrapInt (st.aceCount + (aceNumber hand : Int))
    ∧ ((∃ a, st.aceCard = some a ∧ a.rank = RANKS.ACE) ∨ 0 < aceNumber hand →
        ∃ a, (hand.foldl cardSumCal.step st).aceCard = some a ∧ a.rank = RANKS.ACE) := by
  induction hand generalizing st with
  | nil => simp [rankBaseSum, aceNumber, hs, ha]
  | cons c rest ih =>
    rw [List.foldl_cons, List.map_cons, rankBaseSum_cons, aceNumber_cons]
    by_cases hace : c.rank = RANKS.ACE
    · have hstep : cardSumCal.step st c = ⟨st.sum, wrapInt (st.aceCount + 1), some c⟩ := by
        simp [cardSumCal.step, hace]
      obtain ⟨h1, h2, h3⟩ := ih ⟨st.sum, wrapInt (st.aceCount + 1), some c⟩ hs
        (wrapInt_idem _)
      rw [hstep]
      simp only [hace, if_true] at h1 h2 h3 ⊢
      refine ⟨by rw [h1]; ring_nf, ?_, fun _ => h3 (Or.inl ⟨c, rfl, hace⟩)⟩
      rw [h2, wrapInt_add_left]
      push_cast
      ring_nf
    · have hstep : cardSumCal.step st c
          = ⟨wrapInt (st.sum + getCardValue c 0 0), st.aceCount, st.aceCard⟩ := by
        simp [cardSumCal.step, hace]
      obtain ⟨h1, h2, h3⟩ := ih ⟨wrapInt (st.sum + getCardValue c 0 0), st.aceCount,
        st.aceCard⟩ (wrapInt_idem _) ha
      rw [hstep]
      simp only [hace, if_false] at h1 h2 h3 ⊢
      refine ⟨?_, by rw [h2]; push_cast; ring_nf, fun h => ?_⟩
      · rw [h1, wrapInt_add_left, getCardValue_suit c]
        ring_nf
      · apply h3
        rcases h with h | h
        · exact Or.inl h
        · exact Or.inr (by simpa using h)

/-- The card sum is a function of the ranks alone. -/
theorem cardSumCal_ranks (hand : List CARD) :
    cardSumCal hand = rankTotal (hand.map CARD.rank) := by
  obtain ⟨h1, h2, h3⟩ := foldl_step_ranks hand ⟨0, 0, none⟩ rfl rfl
  simp only [zero_add] at h1 h2
  unfold rankTotal
  rw [← aceNumber_ranks]
  unfold cardSumCal
  simp only [h1, h2]
  by_cases hn : wrapInt (aceNumber hand : Int) > 0
  · obtain ⟨a, ha, hra⟩ := h3 (Or.inr (wrapInt_pos _ hn))
    simp only [hn, if_true, ha]
    exact getCardValue_ace a hra _ _ (le_of_lt hn) (wrapInt_idem _)
  · simp only [hn, if_false]

/-- Hands with the same ranks in the same positions have the same card sum. -/
theorem cardSumCal_same_ranks (h1 h2 : List CARD)
    (h : h1.map CARD.rank = h2.map CARD.rank) : cardSumCal h1 = cardSumCal h2 := by
  rw [cardSumCal_ranks h1, cardSumCal_ranks h2, h]

/-- Hands that are reorderings of each other have the same card sum. -/
theorem cardSumCal_perm (h1 h2 : List CARD) (hp : h1.Perm h2) :
    cardSumCal h1 = cardSumCal h2 := by
  have hr : (h1.map CARD.rank).Perm (h2.map CARD.rank) := hp.map _
  have hb : rankBaseSum (h1.map CARD.rank) = rankBaseSum (h2.map CARD.rank) := by
    unfold rankBaseSum
    exact ((hr.filter _).map _).sum_eq
  rw [cardSumCal_ranks h1, cardSumCal_ranks h2]
  unfold rankTotal
  rw [hb, hr.count_eq]

/-- Every card sum is a value of a 32 bit int. -/
theorem cardSumCal_range (hand : List CARD) :
    -2147483648 ≤ cardSumCal hand ∧ cardSumCal hand ≤ 2147483647 := by
  rw [cardSumCal_ranks]
  unfold rankTotal
  split
  · exact wrapInt_range _
  · exact wrapInt_range _

theorem faceValue_bounds (r : Int) : 0 ≤ faceValue r ∧ faceValue r ≤ 10 := by
  by_cases h : 0 ≤ r ∧ r < 12
  · have h2 : r = 0 ∨ r = 1 ∨ r = 2 ∨ r = 3 ∨ r = 4 ∨ r = 5 ∨ r = 6 ∨ r = 7 ∨ r = 8 ∨ r = 9
      ∨ r = 10 ∨ r = 11 := by omega
    rcases h2 with h | h | h | h | h | h | h | h | h | h | h | h <;> subst h <;> decide
  · have h0 : r ≠ 0 := by omega
    have h1 : r ≠ 1 := by omega
    have h2 : r ≠ 2 := by omega
    have h3 : r ≠ 3 := by omega
    have h4 : r ≠ 4 := by omega
    have h5 : r ≠ 5 := by omega
    have h6 : r ≠ 6 := by omega
    have h7 : r ≠ 7 := by omega
    have h8 : r ≠ 8 := by omega
    have h9 : r ≠ 9 := by omega
    have h10 : r ≠ 10 := by omega
    have h11 : r ≠ 11 := by omega
    simp [faceValue, RANKS.TWO, RANKS.THREE, RANKS.FOUR, RANKS.FIVE, RANKS.SIX,
      RANKS.SEVEN, RANKS.EIGHT, RANKS.NINE, RANKS.TEN, RANKS.JACK, RANKS.QUEEN, RANKS.KING,
      h0, h1, h2, h3, h4, h5, h6, h7, h8, h9, h10, h11]

theorem nonAceSum_nonneg (hand : List CARD) : 0 ≤ nonAceSum hand := by
  induction hand with
  | nil => decide
  | cons c rest ih =>
    rw [nonAceSum_cons]
    have hb := (faceValue_bounds c.rank).1
    by_cases hace : c.rank = RANKS.ACE
    · rw [if_pos hace]
      omega
    · rw [if_neg hace]
      omega

/-- On valid ranks the base sum of the code is the non-ace sum of the value table. -/
theorem rankBaseSum_valid (hand : List CARD) (hv : ∀ c ∈ hand, validRank c.rank) :
    rankBaseSum (hand.map CARD.rank) = nonAceSum hand := by
  induction hand with
  | nil => rfl
  | cons c rest ih =>
    have hc : validRank c.rank := hv c (List.mem_cons_self _ _)
    rw [List.map_cons, rankBaseSum_cons, nonAceSum_cons,
      ih (fun x hx => hv x (List.mem_cons_of_mem _ hx))]
    by_cases hace : c.rank = RANKS.ACE
    · simp only [hace, if_true]
    · simp only [hace, if_false]
      rw [← getCardValue_suit c, getCardValue_nonAce c hc hace]

/-- The closed form of cardSumCal on hands of valid ranks whose total, with every
ace at 11, fits an int. -/
theorem cardSumCal_closed (hand : List CARD) (hv : ∀ c ∈ hand, validRank c.rank)
    (hfit : nonAceSum hand + 11 * (aceNumber hand : Int) ≤ INT_MAX) :
    cardSumCal hand = nonAceSum hand
      + (aceNumber hand : Int) * (if nonAceSum hand + 11 ≤ 21 then 11 else 1) := by
  rw [cardSumCal_ranks]
  unfold rankTotal
  rw [rankBaseSum_valid hand hv, ← aceNumber_ranks]
  have hb := nonAceSum_nonneg hand
  unfold INT_MAX at hfit
  generalize nonAceSum hand = b at hb hfit ⊢
  generalize aceNumber hand = n at hfit ⊢
  have wb : wrapInt b = b := wrapInt_of_range b (by omega) (by omega)
  have wn : wrapInt (n : Int) = (n : Int) := wrapInt_of_range _ (by omega) (by omega)
  rw [wb, wn]
  by_cases hn : (n : Int) > 0
  · have w11 : wrapInt (b + 11) = b + 11 := wrapInt_of_range _ (by omega) (by omega)
    rw [if_pos hn, w11]
    by_cases ht : b + 11 ≤ 21
    · have ht2 : ¬ (b + 11 > 21) := by omega
      rw [if_neg ht2, if_pos ht]
      exact wrapInt_of_range _ (by omega) (by omega)
    · have ht2 : b + 11 > 21 := by omega
      rw [if_pos ht2, if_neg ht]
      exact wrapInt_of_range _ (by omega) (by omega)
  · rw [if_neg hn]
    have hz : (n : Int) = 0 := by omega
    rw [hz]
    ring

theorem nonAceSum_perm {h1 h2 : List CARD} (hp : h1.Perm h2) : nonAceSum h1 = nonAceSum h2 := by
  unfold nonAceSum
  exact ((hp.filter _).map _).sum_eq

theorem aceNumber_perm {h1 h2 : List CARD} (hp : h1.Perm h2) : aceNumber h1 = aceNumber h2 := by
  unfold aceNumber
  exact hp.countP_eq _

/-- The hard value is the non-ace sum plus one for each ace. -/
theorem hardValue_eq (hand : List CARD) :
    hardValue hand = nonAceSum hand + (aceNumber hand : Int) := by
  induction hand with
  | nil => rfl
  | cons c rest ih =>
    have hh : hardValue (c :: rest)
        = (if c.rank = RANKS.ACE then 1 else faceValue c.rank) + hardValue rest := by
      simp [hardValue]
    rw [hh, ih, nonAceSum_cons, aceNumber_cons]
    by_cases h : c.rank = RANKS.ACE
    · simp only [h, if_true]; push_cast; ring
    · simp only [h, if_false]; push_cast; ring

/-- A hand without aces: no ace is counted and the non-ace sum is the plain sum. -/
theorem noAce_sums (hand : List CARD) (hna : ∀ c ∈ hand, c.rank ≠ RANKS.ACE) :
    aceNumber hand = 0
    ∧ nonAceSum hand = (hand.map (fun c => faceValue c.rank)).sum := by
  have hf : hand.filter (fun c => decide (c.rank ≠ RANKS.ACE)) = hand :=
    List.filter_eq_self.mpr (fun c hc => by simpa using hna c hc)
  refine ⟨?_, ?_⟩
  · unfold aceNumber
    exact List.countP_eq_zero.mpr (fun c hc => by simpa using hna c hc)
  · unfold nonAceSum
    rw [hf]

/-- A hand made of Kings only has ten points per card in the value table. -/
theorem kings_sums (hand : List CARD) (hk : ∀ c ∈ hand, c.rank = RANKS.KING) :
    nonAceSum hand = 10 * (hand.length : Int) ∧ aceNumber hand = 0 := by
  induction hand with
  | nil => exact ⟨rfl, rfl⟩
  | cons c rest ih =>
    obtain ⟨ih1, ih2⟩ := ih (fun x hx => hk x (List.mem_cons_of_mem _ hx))
    have hc : c.rank = RANKS.KING := hk c (List.mem_cons_self _ _)
    rw [nonAceSum_cons, aceNumber_cons, ih1, ih2, hc]
    refine ⟨?_, by decide⟩
    have hv : (if RANKS.KING = RANKS.ACE then (0 : Int) else faceValue RANKS.KING) = 10 := by
      decide
    rw [hv, List.length_cons]
    push_cast
    ring

/-- The card sum of a hand made of Kings only: ten per card, reduced to the int
range. -/
theorem kings_cardSum (hand : List CARD) (hk : ∀ c ∈ hand, c.rank = RANKS.KING) :
    cardSumCal hand = wrapInt (10 * (hand.length : Int)) := by
  have hv : ∀ c ∈ hand, validRank c.rank := fun c hc => by
    rw [hk c hc]
    decide
  obtain ⟨k1, k2⟩ := kings_sums hand hk
  rw [cardSumCal_ranks]
  unfold rankTotal
  rw [rankBaseSum_valid hand hv, ← aceNumber_ranks, k1, k2]
  have h0 : ¬ wrapInt ((0 : Nat) : Int) > 0 := by decide
  rw [if_neg h0]

/-- The hand of 214748365 Kings: its value table sum is 2147483650, it has no ace,
and cardSumCal returns -2147483646. -/
theorem kingsHand_facts :
    (∀ c ∈ kingsHand, c.rank = RANKS.KING)
    ∧ kingsHand.length = 214748365
    ∧ nonAceSum kingsHand = 2147483650 ∧ aceNumber kingsHand = 0
    ∧ cardSumCal kingsHand = -2147483646 := by
  have hk : ∀ c ∈ kingsHand, c.rank = RANKS.KING := fun c hc => by
    rw [(List.mem_replicate.mp hc).2]
  have hl : kingsHand.length = 214748365 := List.length_replicate _ _
  obtain ⟨k1, k2⟩ := kings_sums kingsHand hk
  refine ⟨hk, hl, ?_, k2, ?_⟩
  · rw [k1, hl]
    decide
  · rw [kings_cardSum kingsHand hk, hl]
    decide

theorem toNat_eq_twelve (r : Int) : r.toNat = 12 ↔ r = 12 := by
  omega

theorem toNat_lt_of_valid (r : Int) (k : Nat) (h : r ≤ (k : Int)) : r.toNat < k + 1 := by
  omega

/-- All sums of two cards of valid ranks, by rank indices. -/
theorem two_rank_sums : ∀ a : Nat, a < 13 → ∀ b : Nat, b < 13 →
    4 ≤ cardSumCal [⟨(a : Int), 0⟩, ⟨(b : Int), 0⟩]
    ∧ cardSumCal [⟨(a : Int), 0⟩, ⟨(b : Int), 0⟩] ≤ 22
    ∧ (cardSumCal [⟨(a : Int), 0⟩, ⟨(b : Int), 0⟩] > 21 ↔ a = 12 ∧ b = 12)
    ∧ (a = 12 ∧ b = 12 → cardSumCal [⟨(a : Int), 0⟩, ⟨(b : Int), 0⟩] = 22) := by
  decide

/-- Bounds of the card sum of two cards of valid ranks. -/
theorem two_card_sum (c1 c2 : CARD) (h1 : validRank c1.rank) (h2 : validRank c2.rank) :
    4 ≤ cardSumCal [c1, c2] ∧ cardSumCal [c1, c2] ≤ 22
    ∧ (cardSumCal [c1, c2] > 21 ↔ c1.rank = RANKS.ACE ∧ c2.rank = RANKS.ACE)
    ∧ (c1.rank = RANKS.ACE ∧ c2.rank = RANKS.ACE → cardSumCal [c1, c2] = 22) := by
  obtain ⟨r1, s1⟩ := c1
  obtain ⟨r2, s2⟩ := c2
  have hr1 : (0 : Int) ≤ r1 ∧ (12 : Int) ≥ r1 := h1
  have hr2 : (0 : Int) ≤ r2 ∧ (12 : Int) ≥ r2 := h2
  obtain ⟨h1a, h1b⟩ := hr1
  obtain ⟨h2a, h2b⟩ := hr2
  have hs : cardSumCal [⟨r1, s1⟩, ⟨r2, s2⟩]
      = cardSumCal [⟨((r1.toNat : Nat) : Int), 0⟩, ⟨((r2.toNat : Nat) : Int), 0⟩] := by
    apply cardSumCal_same_ranks
    simp [Int.toNat_of_nonneg h1a, Int.toNat_of_nonneg h2a]
  have ht := two_rank_sums r1.toNat (toNat_lt_of_valid r1 12 h1b) r2.toNat
    (toNat_lt_of_valid r2 12 h2b)
  rw [← hs] at ht
  obtain ⟨t1, t2, t3, t4⟩ := ht
  rw [toNat_eq_twelve r1, toNat_eq_twelve r2] at t3 t4
  exact ⟨t1, t2, t3, t4⟩

/-- The hand of one Ace followed by 214748365 Kings: one ace, value table sum
2147483650 for the Kings, and cardSumCal returns -2147483635. -/
theorem aceKingsHand_facts :
    (∀ c ∈ (⟨RANKS.ACE, SUITS.SPADE⟩ : CARD) :: kingsHand, validRank c.rank)
    ∧ aceNumber (⟨RANKS.ACE, SUITS.SPADE⟩ :: kingsHand) = 1
    ∧ nonAceSum (⟨RANKS.ACE, SUITS.SPADE⟩ :: kingsHand) = 2147483650
    ∧ cardSumCal (⟨RANKS.ACE, SUITS.SPADE⟩ :: kingsHand) = -2147483635 := by
  obtain ⟨hk, _, hb, hn, _⟩ := kingsHand_facts
  have hvk : ∀ c ∈ kingsHand, validRank c.rank := fun c hc => by
    rw [hk c hc]
    decide
  have hv : ∀ c ∈ (⟨RANKS.ACE, SUITS.SPADE⟩ : CARD) :: kingsHand, validRank c.rank := by
    intro c hc
    rcases List.mem_cons.mp hc with h | h
    · rw [h]
      decide
    · exact hvk c h
  have h1 : aceNumber (⟨RANKS.ACE, SUITS.SPADE⟩ :: kingsHand) = 1 := by
    rw [aceNumber_cons, hn]
    rfl
  have h2 : nonAceSum (⟨RANKS.ACE, SUITS.SPADE⟩ :: kingsHand) = 2147483650 := by
    rw [nonAceSum_cons, hb]
    rfl
  refine ⟨hv, h1, h2, ?_⟩
  rw [cardSumCal_ranks]
  unfold rankTotal
  rw [rankBaseSum_valid _ hv, ← aceNumber_ranks, h1, h2]
  decide

/-! ## Hand value: the claims -/

/-- C1 as stated fails on a long hand: for 214748365 Kings, all of valid rank, the
formula base + n * v gives 2147483650, which is no int, while cardSumCal returns
-2147483646. -/
theorem cardSumCal_fixed_base_overflow :
    (∀ c ∈ kingsHand, validRank c.rank)
    ∧ nonAceSum kingsHand + (aceNumber kingsHand : Int)
        * (if nonAceSum kingsHand + 11 ≤ 21 then 11 else 1) = 2147483650
    ∧ cardSumCal kingsHand = -2147483646
    ∧ cardSumCal kingsHand ≠ nonAceSum kingsHand + (aceNumber kingsHand : Int)
        * (if nonAceSum kingsHand + 11 ≤ 21 then 11 else 1) := by
  obtain ⟨hk, _, hb, hn, hc⟩ := kingsHand_facts
  refine ⟨fun c hm => by rw [hk c hm]; decide, ?_, hc, ?_⟩
  · rw [hb, hn]
    decide
  · rw [hc, hb, hn]
    decide

/-- C1 as amended: for every hand of valid ranks whose total with every ace counted
as 11 does not exceed the largest int, cardSumCal returns base + n * v, where base
is the sum of the values of the non-ace cards, n is the number of aces, and v is 11
if base + 11 <= 21 and 1 otherwise. The choice between 11 and 1 is made against the
fixed base and is the same for every ace. -/
theorem cardSumCal_fixed_base (hand : List CARD) (hv : ∀ c ∈ hand, validRank c.rank)
    (hfit : nonAceSum hand + 11 * (aceNumber hand : Int) ≤ INT_MAX) :
    cardSumCal hand = nonAceSum hand
      + (aceNumber hand : Int) * (if nonAceSum hand + 11 ≤ 21 then 11 else 1) :=
  cardSumCal_closed hand hv hfit

/-- C1 at the hand Ace, Five, Ace, Three: base 8, two aces, each worth 11. -/
theorem cardSumCal_fixed_base_witness :
    (∀ c ∈ [(⟨RANKS.ACE, SUITS.HEART⟩ : CARD), ⟨RANKS.FIVE, SUITS.CLUB⟩,
        ⟨RANKS.ACE, SUITS.SPADE⟩, ⟨RANKS.THREE, SUITS.HEART⟩], validRank c.rank)
    ∧ nonAceSum [⟨RANKS.ACE, SUITS.HEART⟩, ⟨RANKS.FIVE, SUITS.CLUB⟩,
        ⟨RANKS.ACE, SUITS.SPADE⟩, ⟨RANKS.THREE, SUITS.HEART⟩]
      + 11 * (aceNumber [⟨RANKS.ACE, SUITS.HEART⟩, ⟨RANKS.FIVE, SUITS.CLUB⟩,
        ⟨RANKS.ACE, SUITS.SPADE⟩, ⟨RANKS.THREE, SUITS.HEART⟩] : Int) ≤ INT_MAX
    ∧ cardSumCal [⟨RANKS.ACE, SUITS.HEART⟩, ⟨RANKS.FIVE, SUITS.CLUB⟩,
        ⟨RANKS.ACE, SUITS.SPADE⟩, ⟨RANKS.THREE, SUITS.HEART⟩]
      = nonAceSum [⟨RANKS.ACE, SUITS.HEART⟩, ⟨RANKS.FIVE, SUITS.CLUB⟩,
        ⟨RANKS.ACE, SUITS.SPADE⟩, ⟨RANKS.THREE, SUITS.HEART⟩]
      + (aceNumber [⟨RANKS.ACE, SUITS.HEART⟩, ⟨RANKS.FIVE, SUITS.CLUB⟩,
        ⟨RANKS.ACE, SUITS.SPADE⟩, ⟨RANKS.THREE, SUITS.HEART⟩] : Int)
        * (if nonAceSum [⟨RANKS.ACE, SUITS.HEART⟩, ⟨RANKS.FIVE, SUITS.CLUB⟩,
        ⟨RANKS.ACE, SUITS.SPADE⟩, ⟨RANKS.THREE, SUITS.HEART⟩] + 11 ≤ 21 then 11 else 1) :=
  ⟨by decide, by decide, cardSumCal_fixed_base _ (by decide) (by decide)⟩

/-- C2, evaluated at the hand Ace, Ace: the running total rule of the claim counts
the first ace as 11 and the second as 1, giving 12, while cardSumCal returns 22. -/
theorem cardSumCal_running_total_two_aces :
    runningTotal [⟨RANKS.ACE, SUITS.HEART⟩, ⟨RANKS.ACE, SUITS.SPADE⟩] = 12
    ∧ cardSumCal [⟨RANKS.ACE, SUITS.HEART⟩, ⟨RANKS.ACE, SUITS.SPADE⟩] = 22
    ∧ cardSumCal [⟨RANKS.ACE, SUITS.HEART⟩, ⟨RANKS.ACE, SUITS.SPADE⟩]
      ≠ runningTotal [⟨RANKS.ACE, SUITS.HEART⟩, ⟨RANKS.ACE, SUITS.SPADE⟩] := by
  decide

/-- C3 as stated fails on a long hand: 214748365 Kings form a hand of valid ranks
without an ace whose plain sum is 2147483650, while cardSumCal returns
-2147483646. -/
theorem cardSumCal_no_ace_overflow :
    (∀ c ∈ kingsHand, validRank c.rank ∧ c.rank ≠ RANKS.ACE)
    ∧ (kingsHand.map (fun c => faceValue c.rank)).sum = 2147483650
    ∧ cardSumCal kingsHand = -2147483646
    ∧ cardSumCal kingsHand ≠ (kingsHand.map (fun c => faceValue c.rank)).sum := by
  obtain ⟨hk, _, hb, _, hc⟩ := kingsHand_facts
  have hna : ∀ c ∈ kingsHand, c.rank ≠ RANKS.ACE := fun c hm => by
    rw [hk c hm]
    decide
  have hs : (kingsHand.map (fun c => faceValue c.rank)).sum = 2147483650 := by
    rw [← (noAce_sums kingsHand hna).2, hb]
  refine ⟨fun c hm => ⟨by rw [hk c hm]; decide, hna c hm⟩, hs, hc, ?_⟩
  rw [hc, hs]
  decide

/-- C3 as amended: for every hand of valid ranks without an ace whose plain sum
does not exceed the largest int, cardSumCal returns the plain sum of the card
values of the value table (Two..Nine face value, Ten, Jack, Queen, King worth 10),
whatever the suits; Seven, Nine gives 16 and King, Queen gives 20. -/
theorem cardSumCal_no_ace (hand : List CARD)
    (hv : ∀ c ∈ hand, validRank c.rank ∧ c.rank ≠ RANKS.ACE)
    (hfit : (hand.map (fun c => faceValue c.rank)).sum ≤ INT_MAX) (s1 s2 : SUITS) :
    cardSumCal hand = (hand.map (fun c => faceValue c.rank)).sum
    ∧ cardSumCal [⟨RANKS.SEVEN, s1⟩, ⟨RANKS.NINE, s2⟩] = 16
    ∧ cardSumCal [⟨RANKS.KING, s1⟩, ⟨RANKS.QUEEN, s2⟩] = 20 := by
  refine ⟨?_, rfl, rfl⟩
  obtain ⟨hn, hb⟩ := noAce_sums hand (fun c hc => (hv c hc).2)
  rw [← hb] at hfit ⊢
  rw [cardSumCal_closed hand (fun c hc => (hv c hc).1) (by rw [hn]; simpa using hfit), hn]
  simp

/-- C3 at the hand Seven of Hearts, Nine of Clubs. -/
theorem cardSumCal_no_ace_witness :
    (∀ c ∈ [(⟨RANKS.SEVEN, SUITS.HEART⟩ : CARD), ⟨RANKS.NINE, SUITS.CLUB⟩],
        validRank c.rank ∧ c.rank ≠ RANKS.ACE)
    ∧ ([(⟨RANKS.SEVEN, SUITS.HEART⟩ : CARD), ⟨RANKS.NINE, SUITS.CLUB⟩].map
          (fun c => faceValue c.rank)).sum ≤ INT_MAX
    ∧ cardSumCal [⟨RANKS.SEVEN, SUITS.HEART⟩, ⟨RANKS.NINE, SUITS.CLUB⟩]
      = ([(⟨RANKS.SEVEN, SUITS.HEART⟩ : CARD), ⟨RANKS.NINE, SUITS.CLUB⟩].map
          (fun c => faceValue c.rank)).sum :=
  ⟨by decide, by decide, (cardSumCal_no_ace _ (by decide) (by decide) 0 0).1⟩

/-- C4 as stated fails on a long hand: one Ace with 214748365 Kings is a hand of
valid ranks with exactly one ace and non-ace sum b = 2147483650 > 10, for which
cardSumCal returns -2147483635 and not b + 1. -/
theorem cardSumCal_one_ace_overflow :
    (∀ c ∈ (⟨RANKS.ACE, SUITS.SPADE⟩ : CARD) :: kingsHand, validRank c.rank)
    ∧ aceNumber (⟨RANKS.ACE, SUITS.SPADE⟩ :: kingsHand) = 1
    ∧ nonAceSum (⟨RANKS.ACE, SUITS.SPADE⟩ :: kingsHand) > 10
    ∧ cardSumCal (⟨RANKS.ACE, SUITS.SPADE⟩ :: kingsHand) = -2147483635
    ∧ cardSumCal (⟨RANKS.ACE, SUITS.SPADE⟩ :: kingsHand)
        ≠ nonAceSum (⟨RANKS.ACE, SUITS.SPADE⟩ :: kingsHand) + 1 := by
  obtain ⟨hv, h1, h2, hc⟩ := aceKingsHand_facts
  refine ⟨hv, h1, ?_, hc, ?_⟩
  · rw [h2]
    decide
  · rw [hc, h2]
    decide

/-- C4 as amended: for every hand of valid ranks with exactly one ace, at any
position, and non-ace sum b with b + 11 not above the largest int, cardSumCal
returns b + 11 when b <= 10 and b + 1 when b > 10; Ace, King gives 21 and every
hand made of a Ten, a Six and an Ace gives 17. -/
theorem cardSumCal_one_ace (hand : List CARD) (hv : ∀ c ∈ hand, validRank c.rank)
    (hone : aceNumber hand = 1) (hfit : nonAceSum hand + 11 ≤ INT_MAX)
    (s1 s2 s3 : SUITS) :
    (nonAceSum hand ≤ 10 → cardSumCal hand = nonAceSum hand + 11)
    ∧ (nonAceSum hand > 10 → cardSumCal hand = nonAceSum hand + 1)
    ∧ cardSumCal [⟨RANKS.ACE, s1⟩, ⟨RANKS.KING, s2⟩] = 21
    ∧ (∀ other : List CARD,
        other.Perm [⟨RANKS.TEN, s1⟩, ⟨RANKS.SIX, s2⟩, ⟨RANKS.ACE, s3⟩] →
        cardSumCal other = 17) := by
  have hc := cardSumCal_closed hand hv (by rw [hone]; simpa using hfit)
  rw [hone] at hc
  refine ⟨fun hb => ?_, fun hb => ?_, rfl, fun other hp => ?_⟩
  · have h : nonAceSum hand + 11 ≤ 21 := by omega
    rw [hc, if_pos h]; norm_num
  · have h : ¬ (nonAceSum hand + 11 ≤ 21) := by omega
    rw [hc, if_neg h]; norm_num
  · rw [cardSumCal_perm _ _ hp]
    rfl

/-- C4 at the hand Six, Ace, Ten: one ace in the middle, non-ace sum 16. -/
theorem cardSumCal_one_ace_witness :
    (∀ c ∈ [(⟨RANKS.SIX, SUITS.CLUB⟩ : CARD), ⟨RANKS.ACE, SUITS.HEART⟩,
        ⟨RANKS.TEN, SUITS.SPADE⟩], validRank c.rank)
    ∧ aceNumber [⟨RANKS.SIX, SUITS.CLUB⟩, ⟨RANKS.ACE, SUITS.HEART⟩,
        ⟨RANKS.TEN, SUITS.SPADE⟩] = 1
    ∧ nonAceSum [⟨RANKS.SIX, SUITS.CLUB⟩, ⟨RANKS.ACE, SUITS.HEART⟩,
        ⟨RANKS.TEN, SUITS.SPADE⟩] + 11 ≤ INT_MAX
    ∧ nonAceSum [⟨RANKS.SIX, SUITS.CLUB⟩, ⟨RANKS.ACE, SUITS.HEART⟩,
        ⟨RANKS.TEN, SUITS.SPADE⟩] > 10
    ∧ cardSumCal [⟨RANKS.SIX, SUITS.CLUB⟩, ⟨RANKS.ACE, SUITS.HEART⟩,
        ⟨RANKS.TEN, SUITS.SPADE⟩]
      = nonAceSum [⟨RANKS.SIX, SUITS.CLUB⟩, ⟨RANKS.ACE, SUITS.HEART⟩,
        ⟨RANKS.TEN, SUITS.SPADE⟩] + 1 :=
  ⟨by decide, by decide, by decide, by decide,
    (cardSumCal_one_ace _ (by decide) (by decide) (by decide) 0 0 0).2.1 (by decide)⟩

/-- C5: for the hand Ace, Ace of any suits the non-ace base sum is 0, the ace loop
adds 11 for the first ace and 11 for the second, and cardSumCal returns 22. -/
theorem cardSumCal_two_aces (s1 s2 : SUITS) :
    nonAceSum [⟨RANKS.ACE, s1⟩, ⟨RANKS.ACE, s2⟩] = 0
    ∧ getCardValue.aceLoop 1 0 0 = 11
    ∧ getCardValue.aceLoop 2 0 0 = 11 + 11
    ∧ getCardValue ⟨RANKS.ACE, s2⟩ 2 0 = 22
    ∧ cardSumCal [⟨RANKS.ACE, s1⟩, ⟨RANKS.ACE, s2⟩] = 22 :=
  ⟨rfl, rfl, rfl, rfl, rfl⟩

/-! ## createDeck: auxiliary lemmas -/

/-- The loops of createDeck perform 52 in-range writes and leave the slots filled
in the order of the specification. -/
theorem createDeck_outer :
    createDeck.outer ⟨List.replicate 52 ⟨none, none⟩, 0⟩
      = some ⟨orderedCards.map (fun c => ⟨some c.rank, some c.suit⟩), 52⟩ := by
  decide

/-- The deck built by createDeck is the ordered deck. -/
theorem createDeck_eq : createDeck = some orderedDeck := by
  decide

/-- Every valid combination of rank and suit occurs exactly once in the ordered deck. -/
theorem orderedCards_count (r s : Int) (hr : validRank r) (hs : validSuit s) :
    orderedCards.count ⟨r, s⟩ = 1 := by
  have hnat : ∀ a : Nat, a < 13 → ∀ b : Nat, b < 4 →
      orderedCards.count ⟨(a : Int), (b : Int)⟩ = 1 := by decide
  have h1 : (0 : Int) ≤ r ∧ r ≤ 12 := hr
  have h2 : (0 : Int) ≤ s ∧ s ≤ 3 := hs
  obtain ⟨h1a, h1b⟩ := h1
  obtain ⟨h2a, h2b⟩ := h2
  have h3 := hnat r.toNat (by omega) s.toNat (by omega)
  rwa [Int.toNat_of_nonneg h1a, Int.toNat_of_nonneg h2a] at h3

/-- Every card of the ordered deck has a valid rank and a valid suit. -/
theorem orderedCards_valid : ∀ c ∈ orderedCards, validRank c.rank ∧ validSuit c.suit := by
  decide

/-- The card at position 13 * s + r of the ordered deck has rank r and suit s. -/
theorem orderedCards_at :
    ∀ s : Nat, s < 4 → ∀ r : Nat, r < 13 →
      orderedCards[13 * s + r]? = some ⟨(r : Int), (s : Int)⟩ := by
  decide

/-- A write at an index outside the array makes the construction fail. -/
theorem createDeck_body_out_of_range (i j : Int) (st : createDeck.Locals)
    (h : st.deck.length ≤ st.index) : createDeck.body i j st = none := by
  have hget : st.deck[st.index]? = none := List.getElem?_eq_none h
  simp [createDeck.body, createDeck.setRank, hget]

/-! ## playBlackJack: auxiliary lemmas -/

/-- A deck has at least four cards. -/
theorem deck_front (sDeck : deck_type) :
    ∃ c0 c1 c2 c3 rest, sDeck.cards = c0 :: c1 :: c2 :: c3 :: rest := by
  obtain ⟨cards, hsz⟩ := sDeck
  match cards, hsz with
  | c0 :: c1 :: c2 :: c3 :: rest, _ => exact ⟨c0, c1, c2, c3, rest, rfl⟩

/-- The dealing loop on a deck whose front is known. -/
theorem deal_eq (sDeck : deck_type) (c0 c1 c2 c3 : CARD) (rest : List CARD)
    (h : sDeck.cards = c0 :: c1 :: c2 :: c3 :: rest) :
    playBlackJack.deal sDeck
      = some ⟨sDeck, false, 4, none, [c0, c2], [c1, c3], [0, 1, 2, 3], ""⟩ := by
  obtain ⟨cards, hsz⟩ := sDeck
  simp only at h
  subst h
  simp [playBlackJack.deal, List.range_succ, playBlackJack.dealStep, playBlackJack.init,
    playBlackJack.assign]

/-- The loop body always sets gameOver. -/
theorem body_gameOver (st st1 : playBlackJack.Locals) (h : playBlackJack.body st = some st1) :
    st1.gameOver = true := by
  unfold playBlackJack.body at h
  split at h
  · injection h with h
    rw [← h]
  · exact absurd h (by simp)

/-- The while loop entered with gameOver unset runs the body exactly once. -/
theorem loop_once (st st1 : playBlackJack.Locals) (hg : st.gameOver = false)
    (hb : playBlackJack.body st = some st1) : playBlackJack.loop st = some st1 := by
  rw [playBlackJack.loop]
  simp only [hg, Bool.false_eq_true, if_false]
  split
  · rename_i h1
    rw [hb] at h1
    exact absurd h1 (by simp)
  · rename_i st2 h2
    rw [hb] at h2
    injection h2 with h2
    subst h2
    rw [playBlackJack.loop]
    simp [body_gameOver st st1 hb]

/-- The whole of playBlackJack on a deck whose front is known. -/
theorem playBlackJack_eq (sDeck : deck_type) (c0 c1 c2 c3 : CARD) (rest : List CARD)
    (h : sDeck.cards = c0 :: c1 :: c2 :: c3 :: rest) :
    playBlackJack.loop ⟨sDeck, false, 4, none, [c0, c2], [c1, c3], [0, 1, 2, 3], ""⟩
      = some ⟨sDeck, true, 4,
          some (playBlackJack.compare (cardSumCal [c0, c2]) (cardSumCal [c1, c3])),
          [c0, c2], [c1, c3], [0, 1, 2, 3],
          "" ++ playBlackJack.roundText c0 c2 c1 c3 (cardSumCal [c0, c2]) (cardSumCal [c1, c3])⟩
    ∧ playBlackJack sDeck
      = some ⟨playBlackJack.compare (cardSumCal [c0, c2]) (cardSumCal [c1, c3]),
          "" ++ playBlackJack.roundText c0 c2 c1 c3 (cardSumCal [c0, c2]) (cardSumCal [c1, c3])⟩ := by
  have hl : playBlackJack.loop ⟨sDeck, false, 4, none, [c0, c2], [c1, c3], [0, 1, 2, 3], ""⟩
      = some ⟨sDeck, true, 4,
          some (playBlackJack.compare (cardSumCal [c0, c2]) (cardSumCal [c1, c3])),
          [c0, c2], [c1, c3], [0, 1, 2, 3],
          "" ++ playBlackJack.roundText c0 c2 c1 c3 (cardSumCal [c0, c2]) (cardSumCal [c1, c3])⟩ :=
    loop_once _ _ rfl rfl
  refine ⟨hl, ?_⟩
  unfold playBlackJack
  rw [deal_eq sDeck c0 c1 c2 c3 rest h]
  simp only [hl]

/-- The comparison yields each result exactly on its own order relation. -/
theorem compare_iff (p d : Int) :
    (playBlackJack.compare p d = GAME_RESULT.PLAYER_WIN ↔ p > d)
    ∧ (playBlackJack.compare p d = GAME_RESULT.DEALER_WIN ↔ p < d)
    ∧ (playBlackJack.compare p d = GAME_RESULT.TIE ↔ p = d) := by
  unfold playBlackJack.compare
  rcases lt_trichotomy p d with h | h | h
  · have h1 : ¬ p > d := by omega
    have h2 : p ≠ d := by omega
    simp [h, h1, h2]
  · subst h
    simp
  · have h1 : ¬ p < d := by omega
    have h2 : p ≠ d := by omega
    simp [h, h1, h2]

/-- The text of the round when the totals are 21 and 17. -/
theorem roundText_21_17 (p0 p1 d0 d1 : CARD) :
    "" ++ playBlackJack.roundText p0 p1 d0 d1 21 17
      = "\t\t\t " ++ printCard p0 false ++ " " ++ printCard p1 false ++ "\t\t\t\t\t"
        ++ printCard d0 false ++ " " ++ printCard d1 true
        ++ "\nPLAYER TOTAL: 21\nDEALER TOTAL: 17\n" := by
  have ht : "\n" ++ ("PLAYER TOTAL: " ++ (toString (21 : Int) ++ ("\n"
      ++ ("DEALER TOTAL: " ++ (toString (17 : Int) ++ "\n")))))
      = "\nPLAYER TOTAL: 21\nDEALER TOTAL: 17\n" := by decide
  unfold playBlackJack.roundText
  simp only [String.append_assoc, ht, String.empty_append]

/-- The text main writes, given the deck built and the outcome of the round. -/
theorem main_eq (rnd : Nat → Nat) (deck : deck_type) (res : playBlackJack.Outcome)
    (hc : createDeck = some deck) (hp : playBlackJack (shuffleDeck rnd deck) = some res) :
    main rnd = some (drawTerminalOut ++ printDeck deck ++ "\n"
      ++ printDeck (shuffleDeck rnd deck) ++ "\n" ++ res.out ++ main.resultText res.result) := by
  unfold main
  simp only [hc, hp]

/-! ## playBlackJack: the claims -/

/-- C6: the result of playBlackJack is determined by the two totals alone. With p
and d the card sums of the dealt player and dealer hands, the result is PLAYER_WIN
exactly when p > d, DEALER_WIN exactly when p < d and TIE exactly when p = d; it
is the comparison of p and d and nothing else. -/
theorem playBlackJack_result_by_totals (sDeck : deck_type) :
    ∃ st res, playBlackJack.deal sDeck = some st ∧ playBlackJack sDeck = some res
      ∧ res.result
          = playBlackJack.compare (cardSumCal st.playerHand) (cardSumCal st.dealerHand)
      ∧ (res.result = GAME_RESULT.PLAYER_WIN
          ↔ cardSumCal st.playerHand > cardSumCal st.dealerHand)
      ∧ (res.result = GAME_RESULT.DEALER_WIN
          ↔ cardSumCal st.playerHand < cardSumCal st.dealerHand)
      ∧ (res.result = GAME_RESULT.TIE
          ↔ cardSumCal st.playerHand = cardSumCal st.dealerHand) := by
  obtain ⟨c0, c1, c2, c3, rest, h⟩ := deck_front sDeck
  exact ⟨_, _, deal_eq sDeck c0 c1 c2 c3 rest h, (playBlackJack_eq sDeck c0 c1 c2 c3 rest h).2,
    rfl, compare_iff _ _⟩

/-- C7: for every deck (of 52 cards), the deal of playBlackJack succeeds, reads the
deck exactly at the indices 0, 1, 2, 3, which are all in range, and forms the
player hand from the cards at 0 and 2 and the dealer hand from the cards at 1 and
3, two cards each; the deck is unchanged after the deal and after the round, and
the round reads no further index. -/
theorem playBlackJack_deal (sDeck : deck_type) :
    ∃ c0 c1 c2 c3 st fin,
      sDeck.cards.length = 52
      ∧ sDeck.cards[0]? = some c0 ∧ sDeck.cards[1]? = some c1
      ∧ sDeck.cards[2]? = some c2 ∧ sDeck.cards[3]? = some c3
      ∧ playBlackJack.deal sDeck = some st
      ∧ st.reads = [0, 1, 2, 3] ∧ st.topCard = 4
      ∧ st.playerHand = [c0, c2] ∧ st.dealerHand = [c1, c3]
      ∧ st.playerHand.length = 2 ∧ st.dealerHand.length = 2
      ∧ st.sDeck = sDeck
      ∧ playBlackJack.loop st = some fin
      ∧ fin.sDeck = sDeck ∧ fin.reads = [0, 1, 2, 3]
      ∧ fin.playerHand = [c0, c2] ∧ fin.dealerHand = [c1, c3] := by
  obtain ⟨c0, c1, c2, c3, rest, h⟩ := deck_front sDeck
  refine ⟨c0, c1, c2, c3, _, _, sDeck.size_eq, ?_, ?_, ?_, ?_,
    deal_eq sDeck c0 c1 c2 c3 rest h, rfl, rfl, rfl, rfl, rfl, rfl, rfl,
    (playBlackJack_eq sDeck c0 c1 c2 c3 rest h).1, rfl, rfl, rfl, rfl⟩ <;> simp [h]

/-- C8: for every deck whose first four cards have the ranks Ace, Nine, King,
Eight in that order, the player is dealt Ace, King and the dealer Nine, Eight, the
totals are 21 and 17, playBlackJack writes the two hands followed by the lines
PLAYER TOTAL: 21 and DEALER TOTAL: 17 and returns PLAYER_WIN, and whenever main
plays on that deck its text ends with those lines followed by YOU WIN!!!. -/
theorem playBlackJack_scenario (sDeck : deck_type)
    (hr : (sDeck.cards.take 4).map CARD.rank
      = [RANKS.ACE, RANKS.NINE, RANKS.KING, RANKS.EIGHT]) :
    ∃ c0 c1 c2 c3 st res,
      playBlackJack.deal sDeck = some st
      ∧ st.playerHand = [c0, c2] ∧ st.dealerHand = [c1, c3]
      ∧ c0.rank = RANKS.ACE ∧ c2.rank = RANKS.KING
      ∧ c1.rank = RANKS.NINE ∧ c3.rank = RANKS.EIGHT
      ∧ cardSumCal st.playerHand = 21 ∧ cardSumCal st.dealerHand = 17
      ∧ playBlackJack sDeck = some res
      ∧ res.result = GAME_RESULT.PLAYER_WIN
      ∧ res.out = "\t\t\t " ++ printCard c0 false ++ " " ++ printCard c2 false ++ "\t\t\t\t\t"
          ++ printCard c1 false ++ " " ++ printCard c3 true
          ++ "\nPLAYER TOTAL: 21\nDEALER TOTAL: 17\n"
      ∧ main.resultText res.result = "YOU WIN!!!"
      ∧ ∀ (rnd : Nat → Nat) (deck : deck_type), createDeck = some deck →
          shuffleDeck rnd deck = sDeck →
          main rnd = some (drawTerminalOut ++ printDeck deck ++ "\n" ++ printDeck sDeck ++ "\n"
            ++ ("\t\t\t " ++ printCard c0 false ++ " " ++ printCard c2 false ++ "\t\t\t\t\t"
              ++ printCard c1 false ++ " " ++ printCard c3 true
              ++ "\nPLAYER TOTAL: 21\nDEALER TOTAL: 17\n")
            ++ "YOU WIN!!!") := by
  obtain ⟨c0, c1, c2, c3, rest, h⟩ := deck_front sDeck
  obtain ⟨r0, s0⟩ := c0
  obtain ⟨r1, s1⟩ := c1
  obtain ⟨r2, s2⟩ := c2
  obtain ⟨r3, s3⟩ := c3
  rw [h] at hr
  simp only [List.take_succ_cons, List.take_zero, List.map_cons, List.map_nil, List.cons.injEq,
    and_true] at hr
  obtain ⟨h0, h1, h2, h3⟩ := hr
  subst h0 h1 h2 h3
  have hp : cardSumCal [⟨RANKS.ACE, s0⟩, ⟨RANKS.KING, s2⟩] = 21 := rfl
  have hd : cardSumCal [⟨RANKS.NINE, s1⟩, ⟨RANKS.EIGHT, s3⟩] = 17 := rfl
  have hplay := (playBlackJack_eq sDeck _ _ _ _ rest h).2
  rw [hp, hd, roundText_21_17] at hplay
  refine ⟨_, _, _, _, _, _, deal_eq sDeck _ _ _ _ rest h, rfl, rfl, rfl, rfl, rfl, rfl, hp, hd,
    hplay, rfl, rfl, rfl, ?_⟩
  intro rnd deck hc hs
  have hm := main_eq rnd deck _ hc (hs ▸ hplay)
  rw [hs] at hm
  exact hm

/-- C8 at the deck obtained by shuffling the ordered deck with the sample draws:
its first four cards are Ace, Nine, King, Eight of Hearts and the round is won. -/
theorem playBlackJack_scenario_witness :
    ((shuffleDeck sampleDraws orderedDeck).cards.take 4).map CARD.rank
        = [RANKS.ACE, RANKS.NINE, RANKS.KING, RANKS.EIGHT]
    ∧ (∃ res, playBlackJack (shuffleDeck sampleDraws orderedDeck) = some res
        ∧ res.result = GAME_RESULT.PLAYER_WIN
        ∧ main.resultText res.result = "YOU WIN!!!")
    ∧ ∃ before, main sampleDraws = some (before ++ "YOU WIN!!!") := by
  refine ⟨by decide, ?_⟩
  obtain ⟨_, _, _, _, _, res, _, _, _, _, _, _, _, _, _, hplay, hres, _, htext, hmain⟩ :=
    playBlackJack_scenario (shuffleDeck sampleDraws orderedDeck) (by decide)
  exact ⟨⟨res, hplay, hres, htext⟩, _, hmain sampleDraws orderedDeck createDeck_eq rfl⟩

/-! ## createDeck: the claims -/

/-- C9: createDeck returns a deck of exactly 52 cards in which every combination of
a valid rank and a valid suit occurs exactly once: no duplicates, no omissions and
no sentinel value. Construction succeeds although a write at an index of 52 or more
would make it fail, it ends with index 52, and every field of every slot has been
assigned. -/
theorem createDeck_complete :
    ∃ st deck,
      createDeck.outer ⟨List.replicate 52 ⟨none, none⟩, 0⟩ = some st
      ∧ (∀ (i j : Int) (s : createDeck.Locals), s.deck.length ≤ s.index →
          createDeck.body i j s = none)
      ∧ st.index = 52 ∧ st.deck.length = 52
      ∧ (∀ slot ∈ st.deck, slot.rank ≠ none ∧ slot.suit ≠ none)
      ∧ createDeck = some deck
      ∧ deck.cards.length = 52
      ∧ deck.cards.Nodup
      ∧ (∀ r s : Int, validRank r → validSuit s → deck.cards.count ⟨r, s⟩ = 1)
      ∧ (∀ c ∈ deck.cards, validRank c.rank ∧ validSuit c.suit
          ∧ c.rank ≠ RANKS.MAX_RANKS ∧ c.suit ≠ SUITS.MAX_SUITS) := by
  refine ⟨_, orderedDeck, createDeck_outer, createDeck_body_out_of_range, rfl, by decide,
    by decide, createDeck_eq, orderedDeck.size_eq, by decide, orderedCards_count, ?_⟩
  intro c hc
  have hv := orderedCards_valid c hc
  have h1 : (0 : Int) ≤ c.rank ∧ (12 : Int) ≥ c.rank := hv.1
  have h2 : (0 : Int) ≤ c.suit ∧ (3 : Int) ≥ c.suit := hv.2
  obtain ⟨_, h1b⟩ := h1
  obtain ⟨_, h2b⟩ := h2
  refine ⟨hv.1, hv.2, ?_, ?_⟩
  · intro h13
    have h13a : (13 : Int) = c.rank := h13.symm
    omega
  · intro h4
    have h4a : (4 : Int) = c.suit := h4.symm
    omega

/-- C9 at the Queen of Clubs: it occurs exactly once in the deck that is built. -/
theorem createDeck_complete_witness :
    validRank RANKS.QUEEN ∧ validSuit SUITS.CLUB
    ∧ ∃ deck, createDeck = some deck
        ∧ deck.cards.count ⟨RANKS.QUEEN, SUITS.CLUB⟩ = 1 := by
  obtain ⟨_, deck, _, _, _, _, _, hd, _, _, hcount, _⟩ := createDeck_complete
  exact ⟨by decide, by decide, deck, hd, hcount _ _ (by decide) (by decide)⟩

/-- C10: createDeck produces one fixed order, suits outermost and ranks innermost,
both ascending: for every suit index s in 0..3 and rank index r in 0..12 the card
at index 13 * s + r has suit s and rank r; index 0 holds the Two of Hearts and
index 51 the Ace of Spades. -/
theorem createDeck_order :
    ∃ deck, createDeck = some deck
      ∧ (∀ s : Nat, s < 4 → ∀ r : Nat, r < 13 →
          deck.cards[13 * s + r]? = some ⟨(r : Int), (s : Int)⟩)
      ∧ deck.cards[0]? = some ⟨RANKS.TWO, SUITS.HEART⟩
      ∧ deck.cards[51]? = some ⟨RANKS.ACE, SUITS.SPADE⟩ :=
  ⟨orderedDeck, createDeck_eq, orderedCards_at, by decide, by decide⟩

/-- C10 at suit index 2 and rank index 5: index 31 holds the Seven of Clubs. -/
theorem createDeck_order_witness :
    2 < 4 ∧ 5 < 13
    ∧ ∃ deck, createDeck = some deck
        ∧ deck.cards[13 * 2 + 5]? = some ⟨RANKS.SEVEN, SUITS.CLUB⟩ := by
  obtain ⟨deck, hd, hat, _, _⟩ := createDeck_order
  exact ⟨by decide, by decide, deck, hd, hat 2 (by decide) 5 (by decide)⟩

/-! ## shuffleDeck: auxiliary lemmas -/

/-- Overwriting position j, which holds b, by x is, up to order, replacing b by x. -/
theorem set_perm_cons (xs : List CARD) (j : Nat) (b x : CARD) (h : xs[j]? = some b) :
    (b :: xs.set j x).Perm (x :: xs) := by
  induction xs generalizing j with
  | nil => simp at h
  | cons y ys ih =>
    cases j with
    | zero =>
      simp only [List.getElem?_cons_zero, Option.some.injEq] at h
      subst h
      simpa using List.Perm.swap x y ys
    | succ k =>
      simp only [List.getElem?_cons_succ] at h
      have h1 : (b :: y :: ys.set k x).Perm (y :: b :: ys.set k x) := List.Perm.swap _ _ _
      have h2 : (y :: b :: ys.set k x).Perm (y :: x :: ys) := (ih k h).cons y
      have h3 : (y :: x :: ys).Perm (x :: y :: ys) := List.Perm.swap _ _ _
      simpa using (h1.trans h2).trans h3

/-- An exchange of two positions only reorders the list. -/
theorem swap_perm (l : List CARD) (i j : Nat) : (shuffleDeck.swap l i j).Perm l := by
  induction l generalizing i j with
  | nil => simp [shuffleDeck.swap]
  | cons x xs ih =>
    unfold shuffleDeck.swap
    cases i with
    | zero =>
      cases j with
      | zero => simp
      | succ k =>
        cases hk : xs[k]? with
        | none => simp [hk]
        | some b =>
          simp only [List.getElem?_cons_zero, List.getElem?_cons_succ, hk, List.set_cons_zero,
            List.set_cons_succ]
          exact set_perm_cons xs k b x hk
    | succ m =>
      cases j with
      | zero =>
        cases hm : xs[m]? with
        | none => simp [hm]
        | some a =>
          simp only [List.getElem?_cons_zero, List.getElem?_cons_succ, hm, List.set_cons_zero,
            List.set_cons_succ]
          exact set_perm_cons xs m a x hm
      | succ k =>
        have h := ih m k
        unfold shuffleDeck.swap at h
        cases hm : xs[m]? with
        | none => simp [hm]
        | some a =>
          cases hk : xs[k]? with
          | none => simp [hm, hk]
          | some b =>
            simp only [hm, hk] at h
            simp only [List.getElem?_cons_succ, hm, hk, List.set_cons_succ]
            exact h.cons x

/-- The loop of the shuffle only reorders the list. -/
theorem shuffle_loop_perm (rnd : Nat → Nat) (n : Nat) (l : List CARD) :
    (shuffleDeck.loop rnd n l).Perm l := by
  induction n generalizing l with
  | zero => simp [shuffleDeck.loop]
  | succ k ih =>
    rw [shuffleDeck.loop]
    exact (ih _).trans (swap_perm l _ _)

/-- The shuffled deck is a reordering of the deck. -/
theorem shuffleDeck_cards_perm (rnd : Nat → Nat) (deck : deck_type) :
    (shuffleDeck rnd deck).cards.Perm deck.cards := by
  have hp := shuffle_loop_perm rnd 51 deck.cards
  unfold shuffleDeck
  by_cases hlen : (shuffleDeck.loop rnd 51 deck.cards).length = 52
  · rw [dif_pos hlen]
    dsimp only
    exact hp
  · rw [dif_neg hlen]

/-- The shuffle loop is really run: the guard on the length never fails. -/
theorem shuffleDeck_cards_eq (rnd : Nat → Nat) (deck : deck_type) :
    (shuffleDeck rnd deck).cards = shuffleDeck.loop rnd 51 deck.cards := by
  have hlen : (shuffleDeck.loop rnd 51 deck.cards).length = 52 := by
    rw [(shuffle_loop_perm rnd 51 deck.cards).length_eq, deck.size_eq]
  unfold shuffleDeck
  rw [dif_pos hlen]

/-! ## shuffleDeck: the claim -/

/-- C11: for every deck and all outputs of the random generator, shuffleDeck leaves
the deck a permutation of its input: the same 52 cards with the same multiplicities,
only the order changes. Hence a deck built by createDeck still holds every
combination of a valid rank and a valid suit exactly once after shuffling. -/
theorem shuffleDeck_permutation (rnd : Nat → Nat) (deck : deck_type) :
    (shuffleDeck rnd deck).cards.Perm deck.cards
    ∧ (shuffleDeck rnd deck).cards = shuffleDeck.loop rnd 51 deck.cards
    ∧ (shuffleDeck rnd deck).cards.length = 52
    ∧ (∀ c : CARD, (shuffleDeck rnd deck).cards.count c = deck.cards.count c)
    ∧ (createDeck = some deck → ∀ r s : Int, validRank r → validSuit s →
        (shuffleDeck rnd deck).cards.count ⟨r, s⟩ = 1) := by
  have hp := shuffleDeck_cards_perm rnd deck
  refine ⟨hp, shuffleDeck_cards_eq rnd deck, (shuffleDeck rnd deck).size_eq,
    fun c => hp.count_eq c, fun hc r s hr hs => ?_⟩
  have hd : deck = orderedDeck := by
    have h := createDeck_eq
    rw [hc] at h
    exact Option.some.inj h
  rw [hp.count_eq, hd]
  exact orderedCards_count r s hr hs

/-- C11 at the freshly built deck and the sample generator outputs: the Ace of
Spades is still there exactly once, although the order has changed. -/
theorem shuffleDeck_permutation_witness :
    createDeck = some orderedDeck
    ∧ validRank RANKS.ACE ∧ validSuit SUITS.SPADE
    ∧ (shuffleDeck sampleDraws orderedDeck).cards.count ⟨RANKS.ACE, SUITS.SPADE⟩ = 1
    ∧ (shuffleDeck sampleDraws orderedDeck).cards ≠ orderedDeck.cards :=
  ⟨createDeck_eq, by decide, by decide,
    (shuffleDeck_permutation sampleDraws orderedDeck).2.2.2.2 createDeck_eq
      RANKS.ACE SUITS.SPADE (by decide) (by decide),
    by decide⟩

/-! ## Hand value: the claims on bounds, order and the standard rule -/

/-- C12 as stated fails: totals are not unbounded. A hand of 214748365 Kings does
not have total 10 * n = 2147483650; cardSumCal returns -2147483646, and no total
exceeds the largest int. -/
theorem cardSumCal_unbounded_overflow :
    (∀ c ∈ kingsHand, c.rank = RANKS.KING)
    ∧ kingsHand.length = 214748365
    ∧ cardSumCal kingsHand = -2147483646
    ∧ cardSumCal kingsHand ≠ 10 * (kingsHand.length : Int)
    ∧ ¬ ∃ big : List CARD, cardSumCal big > INT_MAX := by
  obtain ⟨hk, hl, _, _, hc⟩ := kingsHand_facts
  refine ⟨hk, hl, hc, ?_, ?_⟩
  · rw [hc, hl]
    decide
  · rintro ⟨big, hbig⟩
    have h := (cardSumCal_range big).2
    unfold INT_MAX at hbig
    omega

/-- C12 as amended: cardSumCal enforces no bound of its own, the total is returned
as a plain int also when it exceeds 21. A hand of n Kings, of any suits, has total
10 * n as long as 10 * n does not exceed the largest int, so totals reach
2147483640; King, Queen, Five gives 25; and every total lies in the int range. -/
theorem cardSumCal_unbounded (hand : List CARD) (hk : ∀ c ∈ hand, c.rank = RANKS.KING)
    (hfit : 10 * (hand.length : Int) ≤ INT_MAX) (s1 s2 s3 : SUITS) :
    cardSumCal hand = 10 * (hand.length : Int)
    ∧ cardSumCal [⟨RANKS.KING, s1⟩, ⟨RANKS.QUEEN, s2⟩, ⟨RANKS.FIVE, s3⟩] = 25
    ∧ cardSumCal [⟨RANKS.KING, s1⟩, ⟨RANKS.QUEEN, s2⟩, ⟨RANKS.FIVE, s3⟩] > 21
    ∧ (∃ big : List CARD, cardSumCal big = 2147483640)
    ∧ ∀ other : List CARD, -2147483648 ≤ cardSumCal other ∧ cardSumCal other ≤ INT_MAX := by
  have hgen : ∀ h : List CARD, (∀ c ∈ h, c.rank = RANKS.KING) →
      10 * (h.length : Int) ≤ 2147483647 → cardSumCal h = 10 * (h.length : Int) := by
    intro h hh hf
    rw [kings_cardSum h hh]
    exact wrapInt_of_range _ (by omega) hf
  have h25 : cardSumCal [⟨RANKS.KING, s1⟩, ⟨RANKS.QUEEN, s2⟩, ⟨RANKS.FIVE, s3⟩] = 25 := rfl
  refine ⟨hgen hand hk hfit, h25, by rw [h25]; decide, ?_, cardSumCal_range⟩
  refine ⟨List.replicate 214748364 ⟨RANKS.KING, SUITS.HEART⟩, ?_⟩
  have hl : (List.replicate 214748364 (⟨RANKS.KING, SUITS.HEART⟩ : CARD)).length
      = 214748364 := List.length_replicate _ _
  rw [hgen _ (fun c hc => by rw [(List.mem_replicate.mp hc).2]) (by rw [hl]; decide), hl]
  decide

/-- C12 at a hand of three Kings: the total is 30. -/
theorem cardSumCal_unbounded_witness :
    (∀ c ∈ [(⟨RANKS.KING, SUITS.HEART⟩ : CARD), ⟨RANKS.KING, SUITS.CLUB⟩,
        ⟨RANKS.KING, SUITS.SPADE⟩], c.rank = RANKS.KING)
    ∧ 10 * (([(⟨RANKS.KING, SUITS.HEART⟩ : CARD), ⟨RANKS.KING, SUITS.CLUB⟩,
        ⟨RANKS.KING, SUITS.SPADE⟩].length : Nat) : Int) ≤ INT_MAX
    ∧ cardSumCal [⟨RANKS.KING, SUITS.HEART⟩, ⟨RANKS.KING, SUITS.CLUB⟩,
        ⟨RANKS.KING, SUITS.SPADE⟩] = 30 :=
  ⟨by decide, by decide, (cardSumCal_unbounded _ (by decide) (by decide) 0 0 0).1⟩

/-- C17 as stated fails on a long hand: 214748365 Kings have no ace, so the right
hand side n <= 1 holds, yet the standard value is 2147483650 while cardSumCal
returns -2147483646. -/
theorem cardSumCal_vs_standard_overflow :
    (∀ c ∈ kingsHand, validRank c.rank)
    ∧ (aceNumber kingsHand ≤ 1 ∨ nonAceSum kingsHand > 10)
    ∧ stdValue kingsHand = 2147483650
    ∧ cardSumCal kingsHand = -2147483646
    ∧ cardSumCal kingsHand ≠ stdValue kingsHand := by
  obtain ⟨hk, _, hb, hn, hc⟩ := kingsHand_facts
  have hs : stdValue kingsHand = 2147483650 := by
    unfold stdValue
    rw [hardValue_eq, hb, hn]
    decide
  refine ⟨fun c hm => by rw [hk c hm]; decide, Or.inl (by rw [hn]; decide), hs, hc, ?_⟩
  rw [hc, hs]
  decide

/-- C17 as amended: for every hand of valid ranks with n aces and non-ace sum b
whose total with every ace counted as 11 does not exceed the largest int,
cardSumCal agrees with the standard Blackjack value (aces as 1, plus 10 if there is
an ace and the total stays at or below 21) if and only if n <= 1 or b > 10. -/
theorem cardSumCal_vs_standard (hand : List CARD) (hv : ∀ c ∈ hand, validRank c.rank)
    (hfit : nonAceSum hand + 11 * (aceNumber hand : Int) ≤ INT_MAX) :
    cardSumCal hand = stdValue hand ↔ aceNumber hand ≤ 1 ∨ nonAceSum hand > 10 := by
  rw [cardSumCal_closed hand hv hfit]
  unfold stdValue
  rw [hardValue_eq]
  generalize nonAceSum hand = b
  generalize aceNumber hand = n
  by_cases hb : b + 11 ≤ 21
  · rw [if_pos hb]
    by_cases hs : 0 < n ∧ b + (n : Int) + 10 ≤ 21
    · rw [if_pos hs]
      constructor
      · intro h; left; omega
      · intro h; omega
    · rw [if_neg hs]
      constructor
      · intro h; left; omega
      · intro h; omega
  · rw [if_neg hb]
    have hs : ¬ (0 < n ∧ b + (n : Int) + 10 ≤ 21) := by omega
    rw [if_neg hs]
    constructor
    · intro _; right; omega
    · intro _; ring

/-- C17 at the hands Ace, Ace, Nine (the two values differ: 31 against 21) and Ace,
King (both give 21). -/
theorem cardSumCal_vs_standard_witness :
    (∀ c ∈ [(⟨RANKS.ACE, SUITS.HEART⟩ : CARD), ⟨RANKS.ACE, SUITS.CLUB⟩,
        ⟨RANKS.NINE, SUITS.SPADE⟩], validRank c.rank)
    ∧ nonAceSum [⟨RANKS.ACE, SUITS.HEART⟩, ⟨RANKS.ACE, SUITS.CLUB⟩,
        ⟨RANKS.NINE, SUITS.SPADE⟩]
      + 11 * (aceNumber [⟨RANKS.ACE, SUITS.HEART⟩, ⟨RANKS.ACE, SUITS.CLUB⟩,
        ⟨RANKS.NINE, SUITS.SPADE⟩] : Int) ≤ INT_MAX
    ∧ cardSumCal [⟨RANKS.ACE, SUITS.HEART⟩, ⟨RANKS.ACE, SUITS.CLUB⟩,
        ⟨RANKS.NINE, SUITS.SPADE⟩] = 31
    ∧ stdValue [⟨RANKS.ACE, SUITS.HEART⟩, ⟨RANKS.ACE, SUITS.CLUB⟩,
        ⟨RANKS.NINE, SUITS.SPADE⟩] = 21
    ∧ ¬ (aceNumber [⟨RANKS.ACE, SUITS.HEART⟩, ⟨RANKS.ACE, SUITS.CLUB⟩,
        ⟨RANKS.NINE, SUITS.SPADE⟩] ≤ 1
      ∨ nonAceSum [⟨RANKS.ACE, SUITS.HEART⟩, ⟨RANKS.ACE, SUITS.CLUB⟩,
        ⟨RANKS.NINE, SUITS.SPADE⟩] > 10)
    ∧ cardSumCal [⟨RANKS.ACE, SUITS.HEART⟩, ⟨RANKS.KING, SUITS.CLUB⟩]
      = stdValue [⟨RANKS.ACE, SUITS.HEART⟩, ⟨RANKS.KING, SUITS.CLUB⟩] :=
  ⟨by decide, by decide, by decide, by decide,
    fun h => absurd ((cardSumCal_vs_standard _ (by decide) (by decide)).mpr h) (by decide),
    (cardSumCal_vs_standard _ (by decide) (by decide)).mpr (by decide)⟩

/-- C18: cardSumCal does not depend on the order of the cards or on their suits: two
hands that are permutations of each other, or that have the same ranks position by
position, have the same total. -/
theorem cardSumCal_order_suit_independent (h1 h2 : List CARD)
    (h : h1.Perm h2 ∨ h1.map CARD.rank = h2.map CARD.rank) :
    cardSumCal h1 = cardSumCal h2 := by
  rcases h with hp | hr
  · exact cardSumCal_perm h1 h2 hp
  · exact cardSumCal_same_ranks h1 h2 hr

/-- C18 at Ace of Hearts, Six of Clubs, Ten of Spades against its reversal, and
against the same ranks in other suits. -/
theorem cardSumCal_order_suit_independent_witness :
    cardSumCal [⟨RANKS.ACE, SUITS.HEART⟩, ⟨RANKS.SIX, SUITS.CLUB⟩, ⟨RANKS.TEN, SUITS.SPADE⟩]
      = cardSumCal [⟨RANKS.TEN, SUITS.SPADE⟩, ⟨RANKS.SIX, SUITS.CLUB⟩,
          ⟨RANKS.ACE, SUITS.HEART⟩]
    ∧ cardSumCal [⟨RANKS.ACE, SUITS.HEART⟩, ⟨RANKS.SIX, SUITS.CLUB⟩,
          ⟨RANKS.TEN, SUITS.SPADE⟩]
      = cardSumCal [⟨RANKS.ACE, SUITS.DIMOND⟩, ⟨RANKS.SIX, SUITS.DIMOND⟩,
          ⟨RANKS.TEN, SUITS.HEART⟩] :=
  ⟨cardSumCal_order_suit_independent _ _ (Or.inl (by decide)),
    cardSumCal_order_suit_independent _ _ (Or.inr (by decide))⟩

/-- C19: for every hand of two cards of valid ranks the total lies between 4 and 22,
it exceeds 21 if and only if both cards are aces, and then it is exactly 22. This
covers both hands dealt by playBlackJack from any reordering of the deck built
by createDeck. -/
theorem cardSumCal_two_cards (c1 c2 : CARD) (h1 : validRank c1.rank)
    (h2 : validRank c2.rank) :
    4 ≤ cardSumCal [c1, c2] ∧ cardSumCal [c1, c2] ≤ 22
    ∧ (cardSumCal [c1, c2] > 21 ↔ c1.rank = RANKS.ACE ∧ c2.rank = RANKS.ACE)
    ∧ (c1.rank = RANKS.ACE ∧ c2.rank = RANKS.ACE → cardSumCal [c1, c2] = 22)
    ∧ ∀ sDeck : deck_type, sDeck.cards.Perm orderedCards →
        ∃ st p0 p1 d0 d1, playBlackJack.deal sDeck = some st
          ∧ st.playerHand = [p0, p1] ∧ st.dealerHand = [d0, d1]
          ∧ 4 ≤ cardSumCal st.playerHand ∧ cardSumCal st.playerHand ≤ 22
          ∧ 4 ≤ cardSumCal st.dealerHand ∧ cardSumCal st.dealerHand ≤ 22
          ∧ (cardSumCal st.playerHand > 21 ↔ p0.rank = RANKS.ACE ∧ p1.rank = RANKS.ACE)
          ∧ (cardSumCal st.dealerHand > 21 ↔ d0.rank = RANKS.ACE ∧ d1.rank = RANKS.ACE) := by
  obtain ⟨t1, t2, t3, t4⟩ := two_card_sum c1 c2 h1 h2
  refine ⟨t1, t2, t3, t4, ?_⟩
  intro sDeck hp
  obtain ⟨c0, d0, c2, d1, rest, h⟩ := deck_front sDeck
  have hval : ∀ c ∈ sDeck.cards, validRank c.rank := fun c hc =>
    (orderedCards_valid c (hp.mem_iff.mp hc)).1
  have v0 : validRank c0.rank := hval c0 (by simp [h])
  have v1 : validRank d0.rank := hval d0 (by simp [h])
  have v2 : validRank c2.rank := hval c2 (by simp [h])
  have v3 : validRank d1.rank := hval d1 (by simp [h])
  obtain ⟨p1, p2, p3, _⟩ := two_card_sum c0 c2 v0 v2
  obtain ⟨q1, q2, q3, _⟩ := two_card_sum d0 d1 v1 v3
  exact ⟨_, c0, c2, d0, d1, deal_eq sDeck c0 d0 c2 d1 rest h, rfl, rfl, p1, p2, q1, q2, p3, q3⟩

/-- C19 at the hands Ace, Ace (22, the only way past 21) and Two, Two (4). -/
theorem cardSumCal_two_cards_witness :
    validRank RANKS.ACE ∧ validRank RANKS.TWO
    ∧ cardSumCal [⟨RANKS.ACE, SUITS.HEART⟩, ⟨RANKS.ACE, SUITS.SPADE⟩] = 22
    ∧ 4 ≤ cardSumCal [⟨RANKS.TWO, SUITS.HEART⟩, ⟨RANKS.TWO, SUITS.SPADE⟩]
    ∧ cardSumCal [⟨RANKS.TWO, SUITS.HEART⟩, ⟨RANKS.TWO, SUITS.SPADE⟩] ≤ 21 :=
  ⟨by decide, by decide,
    (cardSumCal_two_cards ⟨RANKS.ACE, SUITS.HEART⟩ ⟨RANKS.ACE, SUITS.SPADE⟩
      (by decide) (by decide)).2.2.2.1 ⟨rfl, rfl⟩,
    (cardSumCal_two_cards ⟨RANKS.TWO, SUITS.HEART⟩ ⟨RANKS.TWO, SUITS.SPADE⟩
      (by decide) (by decide)).1,
    by decide⟩

/-! ## printCard and printDeck: auxiliary lemmas -/

/-- The rank switch on the thirteen enumerators, by rank index. -/
theorem rankText_known : ∀ a : Nat, a < 13 →
    printCard.rankText (a : Int) = String.singleton (rankChar (a : Int))
    ∧ rankChar (a : Int) ∈ rankChars ∧ rankChar (a : Int) ≠ '?' := by
  decide

/-- The suit switch on the four enumerators, by suit index. -/
theorem suitText_known : ∀ b : Nat, b < 4 →
    printCard.suitText (b : Int) = String.singleton (suitChar (b : Int))
    ∧ suitChar (b : Int) ∈ suitChars ∧ suitChar (b : Int) ≠ '?' := by
  decide

/-- The rank switch takes its default branch on every other value. -/
theorem rankText_unknown (r : Int) (h : r < 0 ∨ 12 < r) :
    printCard.rankText r = "?" ∧ rankChar r = '?' := by
  constructor
  · have h0 : r ≠ 0 := by omega
    have h1 : r ≠ 1 := by omega
    have h2 : r ≠ 2 := by omega
    have h3 : r ≠ 3 := by omega
    have h4 : r ≠ 4 := by omega
    have h5 : r ≠ 5 := by omega
    have h6 : r ≠ 6 := by omega
    have h7 : r ≠ 7 := by omega
    have h8 : r ≠ 8 := by omega
    have h9 : r ≠ 9 := by omega
    have h10 : r ≠ 10 := by omega
    have h11 : r ≠ 11 := by omega
    have h12 : r ≠ 12 := by omega
    simp [printCard.rankText, RANKS.TWO, RANKS.THREE, RANKS.FOUR, RANKS.FIVE, RANKS.SIX,
      RANKS.SEVEN, RANKS.EIGHT, RANKS.NINE, RANKS.TEN, RANKS.JACK, RANKS.QUEEN, RANKS.KING,
      RANKS.ACE, h0, h1, h2, h3, h4, h5, h6, h7, h8, h9, h10, h11, h12]
  · unfold rankChar
    by_cases hn : 0 ≤ r
    · rw [if_pos hn]
      apply List.getD_eq_default
      have hl : rankChars.length = 13 := rfl
      omega
    · rw [if_neg hn]

/-- The suit switch takes its default branch on every other value. -/
theorem suitText_unknown (s : Int) (h : s < 0 ∨ 3 < s) :
    printCard.suitText s = "?" ∧ suitChar s = '?' := by
  constructor
  · have h0 : s ≠ 0 := by omega
    have h1 : s ≠ 1 := by omega
    have h2 : s ≠ 2 := by omega
    have h3 : s ≠ 3 := by omega
    simp [printCard.suitText, SUITS.HEART, SUITS.DIMOND, SUITS.CLUB, SUITS.SPADE,
      h0, h1, h2, h3]
  · unfold suitChar
    by_cases hn : 0 ≤ s
    · rw [if_pos hn]
      apply List.getD_eq_default
      have hl : suitChars.length = 4 := rfl
      omega
    · rw [if_neg hn]

theorem validRank_iff (r : Int) : validRank r ↔ 0 ≤ r ∧ r ≤ 12 := Iff.rfl

theorem validSuit_iff (s : Int) : validSuit s ↔ 0 ≤ s ∧ s ≤ 3 := Iff.rfl

/-- The rank switch agrees with the rank character of the specification. -/
theorem rankText_eq (r : Int) : printCard.rankText r = String.singleton (rankChar r) := by
  by_cases h : 0 ≤ r ∧ r ≤ 12
  · have hk := (rankText_known r.toNat (by omega)).1
    rwa [Int.toNat_of_nonneg h.1] at hk
  · obtain ⟨h1, h2⟩ := rankText_unknown r (by omega)
    rw [h1, h2]
    rfl

/-- The suit switch agrees with the suit character of the specification. -/
theorem suitText_eq (s : Int) : printCard.suitText s = String.singleton (suitChar s) := by
  by_cases h : 0 ≤ s ∧ s ≤ 3
  · have hk := (suitText_known s.toNat (by omega)).1
    rwa [Int.toNat_of_nonneg h.1] at hk
  · obtain ⟨h1, h2⟩ := suitText_unknown s (by omega)
    rw [h1, h2]
    rfl

/-- The face up text of any card is its two character code. -/
theorem printCard_code (c : CARD) : printCard c false = cardCode c := by
  obtain ⟨r, s⟩ := c
  show printCard.rankText r ++ printCard.suitText s = String.mk [rankChar r, suitChar s]
  rw [rankText_eq, suitText_eq]
  rfl

/-- Characters of valid ranks and suits are table entries, never the question mark. -/
theorem valid_chars (r s : Int) :
    (validRank r → rankChar r ∈ rankChars ∧ rankChar r ≠ '?')
    ∧ (validSuit s → suitChar s ∈ suitChars ∧ suitChar s ≠ '?') := by
  constructor
  · intro h
    rw [validRank_iff] at h
    have hk := (rankText_known r.toNat (by omega)).2
    rwa [Int.toNat_of_nonneg h.1] at hk
  · intro h
    rw [validSuit_iff] at h
    have hk := (suitText_known s.toNat (by omega)).2
    rwa [Int.toNat_of_nonneg h.1] at hk

/-- The loop of printDeck against the accumulator of String.intercalate. -/
theorem intercalate_go_foldl (f : CARD → String) (l : List CARD) (acc : String) :
    String.intercalate.go acc " " (l.map f) ++ " "
      = l.foldl (fun out card => out ++ f card ++ " ") (acc ++ " ") := by
  induction l generalizing acc with
  | nil => rfl
  | cons a rest ih =>
    rw [List.map_cons, String.intercalate.go, List.foldl_cons]
    exact ih (acc ++ " " ++ f a)

/-- The text of printDeck: the separated codes, one more space, and the newline. -/
theorem printDeck_eq (deck : deck_type) :
    printDeck deck
      = String.intercalate " " (deck.cards.map (fun c => printCard c false)) ++ " " ++ "\n" := by
  obtain ⟨cards, hsz⟩ := deck
  unfold printDeck
  match cards, hsz with
  | a :: rest, _ =>
    simp only [List.map_cons, String.intercalate, List.foldl_cons, String.empty_append]
    rw [intercalate_go_foldl (fun c => printCard c false) rest (printCard a false)]

/-- Valid cards are cards of the ordered deck. -/
theorem mem_orderedCards (c : CARD) (hr : validRank c.rank) (hs : validSuit c.suit) :
    c ∈ orderedCards := by
  obtain ⟨r, s⟩ := c
  have h := orderedCards_count r s hr hs
  exact List.count_pos_iff.mp (by omega)

/-- The codes of the ordered deck are pairwise distinct. -/
theorem orderedCards_codes_nodup :
    (orderedCards.map (fun c => printCard c false)).Nodup := by
  decide

/-! ## printCard and printDeck: the claims -/

/-- C13: for every card with a valid rank and suit, printCard with hideCard = false
writes exactly two characters, first the rank character and then the suit character
of the tables (2..9, T, J, Q, K, A and H, D, C, S in enum order); Two of Hearts is
2H, Ten of Spades is TS and Queen of Diamonds is QD. -/
theorem printCard_face_up (c : CARD) (hr : validRank c.rank) (hs : validSuit c.suit) :
    printCard c false = String.mk [rankChar c.rank, suitChar c.suit]
    ∧ (printCard c false).length = 2
    ∧ rankChars[c.rank.toNat]? = some (rankChar c.rank)
    ∧ suitChars[c.suit.toNat]? = some (suitChar c.suit)
    ∧ [RANKS.TWO, RANKS.THREE, RANKS.FOUR, RANKS.FIVE, RANKS.SIX, RANKS.SEVEN, RANKS.EIGHT,
        RANKS.NINE, RANKS.TEN, RANKS.JACK, RANKS.QUEEN, RANKS.KING, RANKS.ACE].map
          printCard.rankText
        = ["2", "3", "4", "5", "6", "7", "8", "9", "T", "J", "Q", "K", "A"]
    ∧ [SUITS.HEART, SUITS.DIMOND, SUITS.CLUB, SUITS.SPADE].map printCard.suitText
        = ["H", "D", "C", "S"]
    ∧ printCard ⟨RANKS.TWO, SUITS.HEART⟩ false = "2H"
    ∧ printCard ⟨RANKS.TEN, SUITS.SPADE⟩ false = "TS"
    ∧ printCard ⟨RANKS.QUEEN, SUITS.DIMOND⟩ false = "QD" := by
  obtain ⟨r, s⟩ := c
  have hr1 : 0 ≤ r ∧ r ≤ 12 := (validRank_iff r).mp hr
  have hs1 : 0 ≤ s ∧ s ≤ 3 := (validSuit_iff s).mp hs
  have hcode := printCard_code ⟨r, s⟩
  refine ⟨hcode, by rw [hcode]; rfl, ?_, ?_, by decide, by decide, by decide, by decide,
    by decide⟩
  · show rankChars[r.toNat]? = some (rankChar r)
    have hlt : r.toNat < rankChars.length := toNat_lt_of_valid r 12 hr1.2
    unfold rankChar
    rw [if_pos hr1.1, List.getD_eq_getElem?_getD, List.getElem?_eq_getElem hlt]
    rfl
  · show suitChars[s.toNat]? = some (suitChar s)
    have hlt : s.toNat < suitChars.length := toNat_lt_of_valid s 3 hs1.2
    unfold suitChar
    rw [if_pos hs1.1, List.getD_eq_getElem?_getD, List.getElem?_eq_getElem hlt]
    rfl

/-- C13 at the Jack of Clubs: the text is JC. -/
theorem printCard_face_up_witness :
    validRank RANKS.JACK ∧ validSuit SUITS.CLUB
    ∧ printCard ⟨RANKS.JACK, SUITS.CLUB⟩ false = String.mk ['J', 'C'] :=
  ⟨by decide, by decide,
    (printCard_face_up ⟨RANKS.JACK, SUITS.CLUB⟩ (by decide) (by decide)).1⟩

/-- C14: a face down card does not show its identity. For every two cards the
hidden text is the same, namely the single character with code 178, which is
neither a rank character, nor a suit character, nor the question mark. -/
theorem printCard_face_down (c1 c2 : CARD) :
    printCard c1 true = printCard c2 true
    ∧ printCard c1 true = String.mk [Char.ofNat 178]
    ∧ (printCard c1 true).length = 1
    ∧ (Char.ofNat 178).toNat = 178
    ∧ Char.ofNat 178 ∉ rankChars ∧ Char.ofNat 178 ∉ suitChars
    ∧ Char.ofNat 178 ≠ '?' :=
  ⟨rfl, rfl, rfl, by decide, by decide, by decide, by decide⟩

/-- C15: for a face up card an unknown rank value gives the question mark in the
rank position and an unknown suit value gives it in the suit position, each
independently of the other: with an unknown rank and a valid suit the suit
character is still the right one, and the other way round. -/
theorem printCard_unknown (r s : Int) :
    (¬ validRank r → printCard ⟨r, s⟩ false = "?" ++ printCard.suitText s)
    ∧ (¬ validSuit s → printCard ⟨r, s⟩ false = printCard.rankText r ++ "?")
    ∧ (¬ validRank r → validSuit s →
        printCard ⟨r, s⟩ false = String.mk ['?', suitChar s]
        ∧ suitChar s ∈ suitChars ∧ suitChar s ≠ '?')
    ∧ (validRank r → ¬ validSuit s →
        printCard ⟨r, s⟩ false = String.mk [rankChar r, '?']
        ∧ rankChar r ∈ rankChars ∧ rankChar r ≠ '?')
    ∧ (¬ validRank r → ¬ validSuit s → printCard ⟨r, s⟩ false = "??")
    ∧ printCard ⟨RANKS.MAX_RANKS, SUITS.SPADE⟩ false = "?S"
    ∧ printCard ⟨RANKS.QUEEN, SUITS.MAX_SUITS⟩ false = "Q?"
    ∧ printCard ⟨RANKS.MAX_RANKS, SUITS.MAX_SUITS⟩ false = "??" := by
  have hcode := printCard_code ⟨r, s⟩
  have hdef : printCard ⟨r, s⟩ false = printCard.rankText r ++ printCard.suitText s := rfl
  have hru : ¬ validRank r → printCard.rankText r = "?" ∧ rankChar r = '?' := fun h =>
    rankText_unknown r (by rw [validRank_iff] at h; omega)
  have hsu : ¬ validSuit s → printCard.suitText s = "?" ∧ suitChar s = '?' := fun h =>
    suitText_unknown s (by rw [validSuit_iff] at h; omega)
  refine ⟨fun h => by rw [hdef, (hru h).1], fun h => by rw [hdef, (hsu h).1],
    fun h hv => ⟨?_, (valid_chars r s).2 hv⟩, fun hv h => ⟨?_, (valid_chars r s).1 hv⟩,
    fun h1 h2 => by rw [hdef, (hru h1).1, (hsu h2).1]; rfl, by decide, by decide, by decide⟩
  · rw [hcode, cardCode]
    simp only [(hru h).2]
  · rw [hcode, cardCode]
    simp only [(hsu h).2]

/-- C15 at the sentinel rank with the suit Spade, and at Queen with the sentinel suit. -/
theorem printCard_unknown_witness :
    ¬ validRank RANKS.MAX_RANKS ∧ validSuit SUITS.SPADE
    ∧ printCard ⟨RANKS.MAX_RANKS, SUITS.SPADE⟩ false = String.mk ['?', suitChar SUITS.SPADE]
    ∧ validRank RANKS.QUEEN ∧ ¬ validSuit SUITS.MAX_SUITS
    ∧ printCard ⟨RANKS.QUEEN, SUITS.MAX_SUITS⟩ false
        = String.mk [rankChar RANKS.QUEEN, '?'] :=
  ⟨by decide, by decide,
    ((printCard_unknown RANKS.MAX_RANKS SUITS.SPADE).2.2.1 (by decide) (by decide)).1,
    by decide, by decide,
    ((printCard_unknown RANKS.QUEEN SUITS.MAX_SUITS).2.2.2.1 (by decide) (by decide)).1⟩

/-- C16 as stated fails: on the deck built by createDeck the text of printDeck is
not the card codes separated by single spaces followed by a newline, because a
space also follows the last code. -/
theorem printDeck_not_separated :
    createDeck = some orderedDeck ∧ printDeck orderedDeck ≠ separatedDump orderedDeck := by
  refine ⟨createDeck_eq, ?_⟩
  decide

/-- C16 as amended: for every deck, printDeck writes the 52 two character card
codes in deck order, each one followed by a single space, the last one included,
and then a newline; that is the separated codes, one more space, and the newline. -/
theorem printDeck_text (deck : deck_type) :
    printDeck deck
      = String.intercalate " " (deck.cards.map (fun c => printCard c false)) ++ " " ++ "\n"
    ∧ printDeck deck
      = String.join (deck.cards.map (fun c => printCard c false ++ " ")) ++ "\n"
    ∧ (deck.cards.map (fun c => printCard c false)).length = 52
    ∧ ∀ c : CARD, (printCard c false).length = 2 := by
  refine ⟨printDeck_eq deck, ?_, by rw [List.length_map, deck.size_eq], fun c => ?_⟩
  · unfold printDeck String.join
    rw [List.foldl_map]
    simp only [String.append_assoc]
  · rw [printCard_code]
    rfl

/-- C20: the face up card code is injective on valid cards: two cards with valid
rank and suit have the same text if and only if they are the same card. So the 52
codes written for the deck built by createDeck are pairwise distinct. -/
theorem printCard_injective (c1 c2 : CARD) (h1 : validRank c1.rank ∧ validSuit c1.suit)
    (h2 : validRank c2.rank ∧ validSuit c2.suit) :
    (printCard c1 false = printCard c2 false ↔ c1 = c2)
    ∧ ∃ deck, createDeck = some deck
        ∧ (deck.cards.map (fun c => printCard c false)).Nodup
        ∧ (deck.cards.map (fun c => printCard c false)).length = 52 := by
  refine ⟨⟨fun h => ?_, fun h => by rw [h]⟩,
    orderedDeck, createDeck_eq, orderedCards_codes_nodup, by decide⟩
  exact List.inj_on_of_nodup_map orderedCards_codes_nodup
    (mem_orderedCards c1 h1.1 h1.2) (mem_orderedCards c2 h2.1 h2.2) h

/-- C20 at the Ten of Hearts and the Ten of Spades: different cards, different text. -/
theorem printCard_injective_witness :
    (validRank RANKS.TEN ∧ validSuit SUITS.HEART)
    ∧ (validRank RANKS.TEN ∧ validSuit SUITS.SPADE)
    ∧ printCard ⟨RANKS.TEN, SUITS.HEART⟩ false ≠ printCard ⟨RANKS.TEN, SUITS.SPADE⟩ false :=
  ⟨by decide, by decide,
    fun h => absurd
      ((printCard_injective ⟨RANKS.TEN, SUITS.HEART⟩ ⟨RANKS.TEN, SUITS.SPADE⟩
        (by decide) (by decide)).1.mp h) (by decide)⟩

end Blackjack
